import Mathlib

/-!
# Verification of the cursor-based pagination engine

Shallow embedding of the pagination core of this repository:

* `src/apps/backend/src/shared/utils/pagination/repository.ts`
  (`createPaginatedQuery` / `paginatedQuery` / `buildCursorWhereCondition` /
  `fetchTotalCount`), and
* the use-case module (`paginatedUseCase`, `parseCursor`, `encodeCursor`,
  `decodeCursor`, `createCursorData`, `createNextCursor`,
  `createPreviousCursor`, `getDefaultCursorData`, `isISODateString`).

Database rows are modelled as association lists from column names to SQL
values; the Kysely query pipeline is modelled denotationally (WHERE = filter,
ORDER BY = sort, LIMIT = take).  JavaScript `Date` objects are modelled by
their broken-down UTC fields, since the codec only formats and parses them.
The opaque wire token (base64 of JSON text) is modelled as "either a JSON
document or unparseable garbage": `Buffer.from(s, "base64").toString()`
never throws in Node, and the subsequent `JSON.parse` either yields a JSON
value or throws `SyntaxError`.
-/

namespace Pagination

/-- Three-way comparison of naturals. -/
def natCmp (a b : Nat) : Ordering :=
  if a < b then .lt else if b < a then .gt else .eq

/-- Three-way comparison of integers. -/
def intCmp (a b : Int) : Ordering :=
  if a < b then .lt else if b < a then .gt else .eq

/-- Three-way comparison of characters by code point. -/
def charCmp (a b : Char) : Ordering := natCmp a.toNat b.toNat

/-- Lexicographic three-way comparison of lists (shorter prefix first). -/
def listCmp (f : α → α → Ordering) : List α → List α → Ordering
  | [], [] => .eq
  | [], _ :: _ => .lt
  | _ :: _, [] => .gt
  | a :: as, b :: bs =>
    match f a b with
    | .eq => listCmp f as bs
    | o => o

theorem natCmp_eq_iff (a b : Nat) : natCmp a b = .eq ↔ a = b := by
  unfold natCmp
  split
  · constructor
    · intro h; exact absurd h (by simp)
    · omega
  · split
    · constructor
      · intro h; exact absurd h (by simp)
      · omega
    · simp; omega

theorem natCmp_swap (a b : Nat) : (natCmp a b).swap = natCmp b a := by
  unfold natCmp
  split <;> split <;> simp_all [Ordering.swap] <;> omega

theorem natCmp_lt_trans {a b c : Nat} (h₁ : natCmp a b = .lt) (h₂ : natCmp b c = .lt) :
    natCmp a c = .lt := by
  unfold natCmp at *
  split at h₁ <;> split at h₂ <;> simp_all <;> omega

theorem intCmp_eq_iff (a b : Int) : intCmp a b = .eq ↔ a = b := by
  unfold intCmp
  split
  · constructor
    · intro h; exact absurd h (by simp)
    · omega
  · split
    · constructor
      · intro h; exact absurd h (by simp)
      · omega
    · simp; omega

theorem intCmp_swap (a b : Int) : (intCmp a b).swap = intCmp b a := by
  unfold intCmp
  split <;> split <;> simp_all [Ordering.swap] <;> omega

theorem intCmp_lt_trans {a b c : Int} (h₁ : intCmp a b = .lt) (h₂ : intCmp b c = .lt) :
    intCmp a c = .lt := by
  unfold intCmp at *
  split at h₁ <;> split at h₂ <;> simp_all <;> omega

theorem charCmp_eq_iff (a b : Char) : charCmp a b = .eq ↔ a = b := by
  unfold charCmp
  rw [natCmp_eq_iff]
  constructor
  · intro h; exact Char.ext (UInt32.toNat.inj h)
  · intro h; rw [h]

theorem charCmp_swap (a b : Char) : (charCmp a b).swap = charCmp b a :=
  natCmp_swap _ _

theorem charCmp_lt_trans {a b c : Char} (h₁ : charCmp a b = .lt) (h₂ : charCmp b c = .lt) :
    charCmp a c = .lt :=
  natCmp_lt_trans h₁ h₂

theorem listCmp_eq_iff (f : α → α → Ordering) (hf : ∀ a b, f a b = .eq ↔ a = b) :
    ∀ l m, listCmp f l m = .eq ↔ l = m := by
  intro l
  induction l with
  | nil => intro m; cases m <;> simp [listCmp]
  | cons a as ih =>
    intro m
    cases m with
    | nil => simp [listCmp]
    | cons b bs =>
      simp only [listCmp]
      cases h : f a b with
      | eq =>
        have hab : a = b := (hf a b).mp h
        simp [hab, ih bs]
      | lt =>
        have : ¬a = b := fun hab => by simp [hab, (hf b b).mpr rfl] at h
        simp [this]
      | gt =>
        have : ¬a = b := fun hab => by simp [hab, (hf b b).mpr rfl] at h
        simp [this]

theorem listCmp_swap (f : α → α → Ordering) (hf : ∀ a b, (f a b).swap = f b a) :
    ∀ l m, (listCmp f l m).swap = listCmp f m l := by
  intro l
  induction l with
  | nil => intro m; cases m <;> simp [listCmp, Ordering.swap]
  | cons a as ih =>
    intro m
    cases m with
    | nil => simp [listCmp, Ordering.swap]
    | cons b bs =>
      simp only [listCmp]
      cases h : f a b with
      | eq =>
        have : f b a = .eq := by rw [← hf a b, h]; rfl
        simp [this, ih bs]
      | lt =>
        have : f b a = .gt := by rw [← hf a b, h]; rfl
        simp [this, Ordering.swap]
      | gt =>
        have : f b a = .lt := by rw [← hf a b, h]; rfl
        simp [this, Ordering.swap]

theorem listCmp_lt_trans (f : α → α → Ordering) (hf : ∀ a b, f a b = .eq ↔ a = b)
    (ht : ∀ {a b c}, f a b = .lt → f b c = .lt → f a c = .lt) :
    ∀ {l m n : List α}, listCmp f l m = .lt → listCmp f m n = .lt → listCmp f l n = .lt := by
  intro l
  induction l with
  | nil =>
    intro m n h₁ h₂
    cases m with
    | nil => exact h₂
    | cons b bs => cases n with
      | nil => simp [listCmp] at h₂
      | cons c cs => simp [listCmp]
  | cons a as ih =>
    intro m n h₁ h₂
    cases m with
    | nil => simp [listCmp] at h₁
    | cons b bs =>
      cases n with
      | nil => simp [listCmp] at h₂
      | cons c cs =>
        simp only [listCmp] at h₁ h₂ ⊢
        cases hab : f a b with
        | gt => simp [hab] at h₁
        | lt =>
          cases hbc : f b c with
          | gt => simp [hbc] at h₂
          | lt => simp [ht hab hbc]
          | eq =>
            have : b = c := (hf b c).mp hbc
            subst this
            simp [hab]
        | eq =>
          have : a = b := (hf a b).mp hab
          subst this
          simp only [hab] at h₁
          cases hbc : f a c with
          | gt => simp [hbc] at h₂
          | lt => simp
          | eq =>
            have : a = c := (hf a c).mp hbc
            subst this
            simp only [hbc] at h₂
            simp [(hf a a).mpr rfl]
            exact ih h₁ h₂

/-- Broken-down UTC representation of a JavaScript `Date`.
JS `Date` holds an epoch timestamp; the pagination codec only ever formats it
(`toISOString`) and re-parses it (`new Date(isoString)`), so the broken-down
field representation is the part of the object the code observes. -/
structure DateRec where
  year : Nat
  month : Nat
  day : Nat
  hour : Nat
  minute : Nat
  second : Nat
  ms : Nat
deriving DecidableEq

/-- The fields of a date as a list, in order of significance. -/
def DateRec.fields (d : DateRec) : List Nat :=
  [d.year, d.month, d.day, d.hour, d.minute, d.second, d.ms]

theorem DateRec.fields_inj {d₁ d₂ : DateRec} (h : d₁.fields = d₂.fields) : d₁ = d₂ := by
  cases d₁; cases d₂
  simp [DateRec.fields] at h
  simp [h]

/-- Chronological comparison of dates (lexicographic on UTC fields). -/
def dateCmp (a b : DateRec) : Ordering := listCmp natCmp a.fields b.fields

/-- A runtime SQL value, mirroring the TS union
`string | number | boolean | Date | null` used for row values and cursor
values.  Numbers are modelled as integers (the pagination core performs no
arithmetic on them). -/
inductive Value where
  | str (s : String)
  | num (n : Int)
  | bool (b : Bool)
  | date (d : DateRec)
  | null
deriving DecidableEq

/-- Comparison of strings by code points. -/
def strCmp (a b : String) : Ordering := listCmp charCmp a.data b.data

/-- Comparison of booleans (`false < true`). -/
def boolCmp (a b : Bool) : Ordering := natCmp (cond a 1 0) (cond b 1 0)

/-- Rank used to totalise the order across value constructors (`null` ranks
last, matching `NULLS LAST` of ascending Postgres ordering; heterogeneous
comparisons never occur on a well-typed column). -/
def Value.typeRank : Value → Nat
  | .str _ => 0
  | .num _ => 1
  | .bool _ => 2
  | .date _ => 3
  | .null => 4

/-- Total three-way comparison of SQL values: same-type values compare by
their natural order, differently-typed values by `typeRank`. -/
def Value.cmp : Value → Value → Ordering
  | .str a, .str b => strCmp a b
  | .num a, .num b => intCmp a b
  | .bool a, .bool b => boolCmp a b
  | .date a, .date b => dateCmp a b
  | .null, .null => .eq
  | a, b => natCmp a.typeRank b.typeRank

theorem strCmp_eq_iff (a b : String) : strCmp a b = .eq ↔ a = b := by
  unfold strCmp
  rw [listCmp_eq_iff charCmp charCmp_eq_iff]
  constructor
  · intro h
    cases a; cases b
    exact congrArg String.mk h
  · intro h; rw [h]

theorem boolCmp_eq_iff (a b : Bool) : boolCmp a b = .eq ↔ a = b := by
  cases a <;> cases b <;> simp [boolCmp, natCmp]

theorem dateCmp_eq_iff (a b : DateRec) : dateCmp a b = .eq ↔ a = b := by
  unfold dateCmp
  rw [listCmp_eq_iff natCmp natCmp_eq_iff]
  exact ⟨DateRec.fields_inj, fun h => by rw [h]⟩

theorem Value.cmp_eq_iff (a b : Value) : Value.cmp a b = .eq ↔ a = b := by
  cases a <;> cases b <;>
    simp [Value.cmp, typeRank, natCmp, strCmp_eq_iff, intCmp_eq_iff, boolCmp_eq_iff,
      dateCmp_eq_iff]

theorem boolCmp_swap : ∀ a b : Bool, (boolCmp a b).swap = boolCmp b a := by decide

theorem boolCmp_lt_trans : ∀ a b c : Bool,
    boolCmp a b = .lt → boolCmp b c = .lt → boolCmp a c = .lt := by decide

theorem Value.cmp_swap (a b : Value) : (Value.cmp a b).swap = Value.cmp b a := by
  cases a <;> cases b <;>
    simp only [Value.cmp, typeRank] <;>
    first
      | exact listCmp_swap charCmp charCmp_swap _ _
      | exact intCmp_swap _ _
      | exact boolCmp_swap _ _
      | exact listCmp_swap natCmp natCmp_swap _ _
      | decide

theorem Value.cmp_lt_trans {a b c : Value} (h₁ : Value.cmp a b = .lt)
    (h₂ : Value.cmp b c = .lt) : Value.cmp a c = .lt := by
  cases a <;> cases b <;> cases c <;>
    simp only [Value.cmp, typeRank] at h₁ h₂ ⊢ <;>
    first
      | decide
      | exact absurd h₁ (by decide)
      | exact absurd h₂ (by decide)
      | exact listCmp_lt_trans charCmp charCmp_eq_iff charCmp_lt_trans h₁ h₂
      | exact intCmp_lt_trans h₁ h₂
      | exact boolCmp_lt_trans _ _ _ h₁ h₂
      | exact listCmp_lt_trans natCmp natCmp_eq_iff natCmp_lt_trans h₁ h₂

/-! ## ISO-8601 date formatting and parsing

Models `Date.prototype.toISOString` and the composite check
`isoDateRegex.test(value) && !Number.isNaN(Date.parse(value))` from the
use-case module.  Only proleptic-Gregorian years `0..275760` are modelled
(`Date` years below zero would need signed years; no claim exercises them).
`toISOString` uses the expanded `+YYYYYY` form for years above 9999, which
the cursor regex `^\d{4}-...` never matches. -/

/-- The character for a decimal digit. -/
def digitChar (n : Nat) : Char := Char.ofNat (48 + n)

/-- The numeric value of a decimal digit character, if it is one. -/
def digitVal (c : Char) : Option Nat :=
  if 48 ≤ c.toNat ∧ c.toNat ≤ 57 then some (c.toNat - 48) else none

/-- Two-digit zero-padded decimal. -/
def pad2 (n : Nat) : List Char := [digitChar (n / 10), digitChar (n % 10)]

/-- Three-digit zero-padded decimal. -/
def pad3 (n : Nat) : List Char :=
  [digitChar (n / 100), digitChar (n / 10 % 10), digitChar (n % 10)]

/-- Four-digit zero-padded decimal. -/
def pad4 (n : Nat) : List Char :=
  [digitChar (n / 1000), digitChar (n / 100 % 10), digitChar (n / 10 % 10), digitChar (n % 10)]

/-- Six-digit zero-padded decimal (expanded-year ISO form). -/
def pad6 (n : Nat) : List Char :=
  [digitChar (n / 100000), digitChar (n / 10000 % 10), digitChar (n / 1000 % 10),
    digitChar (n / 100 % 10), digitChar (n / 10 % 10), digitChar (n % 10)]

/-- Model of `Date.prototype.toISOString` (character list). -/
def isoChars (d : DateRec) : List Char :=
  (if d.year < 10000 then pad4 d.year else '+' :: pad6 d.year) ++
    '-' :: (pad2 d.month ++ '-' :: (pad2 d.day ++ 'T' :: (pad2 d.hour ++ ':' ::
      (pad2 d.minute ++ ':' :: (pad2 d.second ++ '.' :: (pad3 d.ms ++ ['Z']))))))

/-- Model of `Date.prototype.toISOString`. -/
def toISOString (d : DateRec) : String := ⟨isoChars d⟩

/-- Read a two-digit number. -/
def read2 (a b : Char) : Option Nat := do
  let x ← digitVal a
  let y ← digitVal b
  pure (x * 10 + y)

/-- Read a three-digit number. -/
def read3 (a b c : Char) : Option Nat := do
  let x ← digitVal a
  let y ← digitVal b
  let z ← digitVal c
  pure (x * 100 + y * 10 + z)

/-- Read a four-digit number. -/
def read4 (a b c d : Char) : Option Nat := do
  let x ← digitVal a
  let y ← digitVal b
  let z ← digitVal c
  let w ← digitVal d
  pure (x * 1000 + y * 100 + z * 10 + w)

/-- Gregorian leap year. -/
def isLeapYear (y : Nat) : Bool := y % 4 == 0 && (y % 100 != 0 || y % 400 == 0)

/-- Days in a month of a given year. -/
def daysInMonth (y m : Nat) : Nat :=
  if m = 2 then (if isLeapYear y then 29 else 28)
  else if m = 4 ∨ m = 6 ∨ m = 9 ∨ m = 11 then 30 else 31

/-- The field ranges `Date.parse` accepts for an ISO date-time string
(ECMA-262 Date Time String Format; hour 24 only at exactly midnight).
These are also the ranges `toISOString` produces. -/
def validFields (y m d h mi s ms : Nat) : Bool :=
  decide (1 ≤ m ∧ m ≤ 12 ∧ 1 ≤ d ∧ d ≤ daysInMonth y m ∧
    (h ≤ 23 ∨ (h = 24 ∧ mi = 0 ∧ s = 0 ∧ ms = 0)) ∧ mi ≤ 59 ∧ s ≤ 59 ∧ ms ≤ 999)

/-- A date whose fields are in range (the invariant of every real JS `Date`,
whose broken-down fields always come from a valid timestamp). -/
def ValidDate (d : DateRec) : Prop :=
  validFields d.year d.month d.day d.hour d.minute d.second d.ms = true

instance (d : DateRec) : Decidable (ValidDate d) := by
  unfold ValidDate; infer_instance

/-- Build a date after checking field ranges (`Date.parse` returning NaN is
modelled by `none`). -/
def mkDateRec (y m d h mi s ms : Nat) : Option DateRec :=
  if validFields y m d h mi s ms then some ⟨y, m, d, h, mi, s, ms⟩ else none

/-- Parse the two shapes accepted by the cursor codec's ISO regex
`^\d{4}-\d{2}-\d{2}T\d{2}:\d{2}:\d{2}(\.\d{3})?Z$`, then validate the
fields as `Date.parse` does. -/
def parseISOChars : List Char → Option DateRec
  | [y1, y2, y3, y4, '-', m1, m2, '-', d1, d2, 'T',
      h1, h2, ':', i1, i2, ':', s1, s2, 'Z'] => do
    let y ← read4 y1 y2 y3 y4
    let m ← read2 m1 m2
    let d ← read2 d1 d2
    let h ← read2 h1 h2
    let mi ← read2 i1 i2
    let s ← read2 s1 s2
    mkDateRec y m d h mi s 0
  | [y1, y2, y3, y4, '-', m1, m2, '-', d1, d2, 'T',
      h1, h2, ':', i1, i2, ':', s1, s2, '.', f1, f2, f3, 'Z'] => do
    let y ← read4 y1 y2 y3 y4
    let m ← read2 m1 m2
    let d ← read2 d1 d2
    let h ← read2 h1 h2
    let mi ← read2 i1 i2
    let s ← read2 s1 s2
    let ms ← read3 f1 f2 f3
    mkDateRec y m d h mi s ms
  | _ => none

/-- Parse an ISO date string in one of the regex shapes. -/
def parseISODate (s : String) : Option DateRec := parseISOChars s.data

/-- Model of `isISODateString`: the regex shape test together with the
`Date.parse` NaN check. -/
def isISODateString (s : String) : Bool := (parseISODate s).isSome

theorem digitVal_digitChar : ∀ n, n < 10 → digitVal (digitChar n) = some n := by decide

theorem read2_pad2 {n : Nat} (h : n < 100) :
    read2 (digitChar (n / 10)) (digitChar (n % 10)) = some n := by
  have h1 : n / 10 < 10 := by omega
  have h2 : n % 10 < 10 := by omega
  simp [read2, digitVal_digitChar _ h1, digitVal_digitChar _ h2]
  omega

theorem read3_pad3 {n : Nat} (h : n < 1000) :
    read3 (digitChar (n / 100)) (digitChar (n / 10 % 10)) (digitChar (n % 10)) = some n := by
  have h1 : n / 100 < 10 := by omega
  have h2 : n / 10 % 10 < 10 := by omega
  have h3 : n % 10 < 10 := by omega
  simp [read3, digitVal_digitChar _ h1, digitVal_digitChar _ h2, digitVal_digitChar _ h3]
  omega

theorem read4_pad4 {n : Nat} (h : n < 10000) :
    read4 (digitChar (n / 1000)) (digitChar (n / 100 % 10)) (digitChar (n / 10 % 10))
      (digitChar (n % 10)) = some n := by
  have h1 : n / 1000 < 10 := by omega
  have h2 : n / 100 % 10 < 10 := by omega
  have h3 : n / 10 % 10 < 10 := by omega
  have h4 : n % 10 < 10 := by omega
  simp [read4, digitVal_digitChar _ h1, digitVal_digitChar _ h2, digitVal_digitChar _ h3,
    digitVal_digitChar _ h4]
  omega

/-- The temporal round trip: parsing the ISO serialization of a valid date
with a four-digit year recovers the date. -/
theorem parseISODate_toISOString {d : DateRec} (hv : ValidDate d) (hy : d.year < 10000) :
    parseISODate (toISOString d) = some d := by
  obtain ⟨y, m, dd, h, mi, s, ms⟩ := d
  have hb : 1 ≤ m ∧ m ≤ 12 ∧ 1 ≤ dd ∧ dd ≤ daysInMonth y m ∧
      (h ≤ 23 ∨ (h = 24 ∧ mi = 0 ∧ s = 0 ∧ ms = 0)) ∧ mi ≤ 59 ∧ s ≤ 59 ∧ ms ≤ 999 := by
    have := hv
    unfold ValidDate validFields at this
    simpa using of_decide_eq_true this
  have hdm : daysInMonth y m ≤ 31 := by
    unfold daysInMonth
    split
    · split <;> omega
    · split <;> omega
  have hm : m < 100 := by omega
  have hdd : dd < 100 := by omega
  have hh : h < 100 := by omega
  have hmi : mi < 100 := by omega
  have hs : s < 100 := by omega
  have hms : ms < 1000 := by omega
  simp only [parseISODate, toISOString, isoChars, pad4, pad2, pad3, if_pos hy]
  simp only [List.cons_append, List.nil_append]
  simp only [parseISOChars, read4_pad4 hy, read2_pad2 hm, read2_pad2 hdd, read2_pad2 hh,
    read2_pad2 hmi, read2_pad2 hs, read3_pad3 hms, Option.bind_some]
  have hv2 : validFields y m dd h mi s ms = true := hv
  simp [mkDateRec, hv2]

/-- The ISO serialization of a valid four-digit-year date passes the
codec's ISO-string detector. -/
theorem isISODateString_toISOString {d : DateRec} (hv : ValidDate d) (hy : d.year < 10000) :
    isISODateString (toISOString d) = true := by
  unfold isISODateString
  rw [parseISODate_toISOString hv hy]
  rfl

/-! ## Wire format: JSON documents, tokens, cursor schema -/

/-- Association-list lookup by key (JS property access; first occurrence). -/
def alookup (k : String) : List (String × β) → Option β
  | [] => none
  | (k₂, v) :: rest => if k₂ = k then some v else alookup k rest

/-- A JSON value (the result of `JSON.parse`).  Object fields are kept in
insertion order, as JS objects and `JSON.parse` do. -/
inductive JValue where
  | null
  | bool (b : Bool)
  | num (n : Int)
  | str (s : String)
  | arr (xs : List JValue)
  | obj (fields : List (String × JValue))

/-- An opaque cursor token after base64 decoding and `JSON.parse`.
Node's forgiving base64 decoder (`Buffer.from(s, "base64")`) never throws,
so every token either yields a JSON document or byte content that
`JSON.parse` rejects with `SyntaxError`; `garbage` keeps the raw token text
of the latter kind (e.g. `"invalid-cursor"`). -/
inductive Token where
  | json (j : JValue)
  | garbage (s : String)

/-- Pagination direction (`z.enum(["next", "prev"])`). -/
inductive Direction where
  | next
  | prev
deriving DecidableEq

/-- The decoded cursor descriptor (`CursorData` in the use-case module).
Records are association lists in insertion order. -/
structure CursorData where
  cursorValues : List (String × Value)
  orderBy : List String
  limit : Nat
  direction : Direction
  filters : List (String × Value)
  timestamp : Int
deriving DecidableEq

/-- The three error classes thrown by `decodeCursor`:
"Invalid cursor format: not valid JSON" (`SyntaxError`),
"Invalid cursor data structure" (`ZodError`), and the generic
"Failed to decode cursor" (any other error, e.g. reading a property of
`null`). -/
inductive DecodeError where
  | invalidFormat
  | invalidStructure
  | failed
deriving DecidableEq

/-- `encodeCursor`'s value serialization: `Date`s become ISO strings
(explicitly for `cursorValues`, and via `Date.prototype.toJSON` under
`JSON.stringify` anywhere else); other values are JSON-representable
as-is. -/
def serializeValue : Value → JValue
  | .str s => .str s
  | .num n => .num n
  | .bool b => .bool b
  | .date d => .str (toISOString d)
  | .null => .null

/-- The wire form of a direction. -/
def serializeDirection : Direction → JValue
  | .next => .str "next"
  | .prev => .str "prev"

/-- Model of `encodeCursor`: the JSON document produced by serializing the
descriptor with `Date`s in `cursorValues` converted to ISO strings.  The
base64 text layer is a bijection and stays implicit in `Token.json`. -/
def encodeCursorJson (c : CursorData) : JValue :=
  .obj [("cursorValues", .obj (c.cursorValues.map (fun p => (p.1, serializeValue p.2)))),
        ("orderBy", .arr (c.orderBy.map JValue.str)),
        ("limit", .num (Int.ofNat c.limit)),
        ("direction", serializeDirection c.direction),
        ("filters", .obj (c.filters.map (fun p => (p.1, serializeValue p.2)))),
        ("timestamp", .num c.timestamp)]

/-- Model of `encodeCursor`. -/
def encodeCursor (c : CursorData) : Token := .json (encodeCursorJson c)

/-- `decodeCursor`'s revival of one `cursorValues` entry followed by the zod
union check: ISO-looking strings become `Date`s (the documented heuristic),
other scalars and `null` are kept, arrays and objects are rejected by
`z.union([z.string(), z.number(), z.boolean(), z.date(), z.null()])`. -/
def reviveValue : JValue → Option Value
  | .str s =>
    match parseISOChars s.data with
    | some d => some (.date d)
    | none => some (.str s)
  | .num n => some (.num n)
  | .bool b => some (.bool b)
  | .null => some .null
  | .arr _ => none
  | .obj _ => none

/-- Revive all `cursorValues` entries, in order. -/
def reviveEntries : List (String × JValue) → Option (List (String × Value))
  | [] => some []
  | (k, v) :: rest => do
    let w ← reviveValue v
    let ws ← reviveEntries rest
    pure ((k, w) :: ws)

/-- JS `Object.entries(x || {})` as used on `data.cursorValues`: object
fields in order; a (truthy) string or an array spreads to its indexed
entries; `null`, numbers and booleans contribute none. -/
def entriesOf : JValue → List (String × JValue)
  | .obj fs => fs
  | .str s => s.data.mapIdx (fun i ch => (Nat.repr i, JValue.str (String.mk [ch])))
  | .arr xs => xs.mapIdx (fun i v => (Nat.repr i, v))
  | _ => []

/-- zod `z.string().array()` on a JSON value's elements. -/
def parseStringList : List JValue → Option (List String)
  | [] => some []
  | .str s :: rest => do pure (s :: (← parseStringList rest))
  | _ => none

/-- zod `z.array(z.string())` for the `orderBy` field. -/
def parseOrderBy : JValue → Option (List String)
  | .arr xs => parseStringList xs
  | _ => none

/-- zod `z.number().int().positive()` for `limit` (model numbers are
integers, so only positivity can fail). -/
def parseLimit : JValue → Option Nat
  | .num n => if 0 < n then some n.toNat else none
  | _ => none

/-- zod `z.enum(["next", "prev"])`. -/
def parseDirection : JValue → Option Direction
  | .str "next" => some .next
  | .str "prev" => some .prev
  | _ => none

/-- zod `z.union([z.string(), z.number(), z.boolean()])` for filter values
(note: no date revival and no `null` on this field). -/
def parseFilterValue : JValue → Option Value
  | .str s => some (.str s)
  | .num n => some (.num n)
  | .bool b => some (.bool b)
  | _ => none

/-- zod `z.record(z.string(), ...)` over the `filters` object. -/
def parseFilters : JValue → Option (List (String × Value))
  | .obj fs => go fs
  | _ => none
where
  go : List (String × JValue) → Option (List (String × Value))
    | [] => some []
    | (k, v) :: rest => do
      let w ← parseFilterValue v
      let ws ← go rest
      pure ((k, w) :: ws)

/-- zod `z.number()` for `timestamp`. -/
def parseTimestamp : JValue → Option Int
  | .num n => some n
  | _ => none

/-- Model of `decodeCursor`.  A `garbage` token is the `SyntaxError` path;
`JSON.parse` yielding `null` makes `data.cursorValues` throw a `TypeError`
(the generic error path); any other non-object document lacks the required
schema fields and fails zod validation.  The final
`{...getDefaultCursorData(), ...cursorSchema.parse(parsedData)}` merge is
the identity on the parse result because every schema field is required. -/
def decodeCursor (t : Token) : Except DecodeError CursorData :=
  match t with
  | .garbage _ => .error .invalidFormat
  | .json .null => .error .failed
  | .json (.obj fs) =>
    match reviveEntries (entriesOf ((alookup "cursorValues" fs).getD .null)),
        (alookup "orderBy" fs).bind parseOrderBy,
        (alookup "limit" fs).bind parseLimit,
        (alookup "direction" fs).bind parseDirection,
        (alookup "filters" fs).bind parseFilters,
        (alookup "timestamp" fs).bind parseTimestamp with
    | some cv, some ob, some l, some dir, some fl, some ts =>
      .ok { cursorValues := cv, orderBy := ob, limit := l, direction := dir,
            filters := fl, timestamp := ts }
    | _, _, _, _, _, _ => .error .invalidStructure
  | .json _ => .error .invalidStructure

/-- Filter values the zod schema can represent (string, number, boolean). -/
def filterableValue : Value → Bool
  | .str _ => true
  | .num _ => true
  | .bool _ => true
  | _ => false

/-- A value that survives the codec's `cursorValues` transformation
unchanged: not an ISO-looking plain string, and for dates a field-valid
date with a four-digit year. -/
def codecStable : Value → Prop
  | .str s => parseISOChars s.data = none
  | .date d => ValidDate d ∧ d.year < 10000
  | _ => True

instance : DecidablePred codecStable := fun v => by
  cases v <;> simp only [codecStable] <;> infer_instance

theorem reviveValue_serializeValue {v : Value} (h : codecStable v) :
    reviveValue (serializeValue v) = some v := by
  cases v with
  | str s =>
    simp only [codecStable] at h
    simp [serializeValue, reviveValue, h]
  | date d =>
    obtain ⟨hv, hy⟩ := h
    have := parseISODate_toISOString hv hy
    simp only [parseISODate] at this
    simp [serializeValue, reviveValue, this]
  | num n => rfl
  | bool b => rfl
  | null => rfl

theorem reviveEntries_serialize {l : List (String × Value)}
    (h : ∀ p ∈ l, codecStable p.2) :
    reviveEntries (l.map (fun p => (p.1, serializeValue p.2))) = some l := by
  induction l with
  | nil => rfl
  | cons p rest ih =>
    have h₁ : codecStable p.2 := h p (by simp)
    have h₂ : ∀ q ∈ rest, codecStable q.2 := fun q hq => h q (by simp [hq])
    simp [reviveEntries, reviveValue_serializeValue h₁, ih h₂]

theorem parseStringList_map (l : List String) :
    parseStringList (l.map JValue.str) = some l := by
  induction l with
  | nil => rfl
  | cons s rest ih => simp [parseStringList, ih]

theorem parseFilters_serialize {l : List (String × Value)}
    (h : ∀ p ∈ l, filterableValue p.2 = true) :
    parseFilters (.obj (l.map (fun p => (p.1, serializeValue p.2)))) = some l := by
  simp only [parseFilters]
  induction l with
  | nil => rfl
  | cons p rest ih =>
    have h₁ : filterableValue p.2 = true := h p (by simp)
    have h₂ : ∀ q ∈ rest, filterableValue q.2 = true := fun q hq => h q (by simp [hq])
    have hv : parseFilterValue (serializeValue p.2) = some p.2 := by
      cases hp : p.2 <;> simp_all [filterableValue, serializeValue, parseFilterValue]
    simp [parseFilters.go, hv, ih h₂]

/-- Shared round-trip core: decoding an encoded descriptor recovers it,
provided the limit is positive (zod), the filter values are zod-scalar, and
every cursor value is codec-stable. -/
theorem decodeCursor_encodeCursor {c : CursorData}
    (hlim : 0 < c.limit)
    (hfil : ∀ p ∈ c.filters, filterableValue p.2 = true)
    (hcv : ∀ p ∈ c.cursorValues, codecStable p.2) :
    decodeCursor (encodeCursor c) = .ok c := by
  obtain ⟨cv, ob, l, dir, fl, ts⟩ := c
  simp only at hlim hfil hcv
  have hdir : parseDirection (serializeDirection dir) = some dir := by
    cases dir <;> rfl
  have hl : parseLimit (.num (l : Int)) = some l := by
    simp only [parseLimit]
    rw [if_pos (by omega)]
    simp
  simp [encodeCursor, encodeCursorJson, decodeCursor, alookup, entriesOf,
    reviveEntries_serialize hcv, parseOrderBy, parseStringList_map, hl, hdir,
    parseFilters_serialize hfil, parseTimestamp]

/-! ## Rows and the keyset query builder (`repository.ts`) -/

/-- A database row as returned by `selectAll()`: column name to SQL value. -/
abbrev Row := List (String × Value)

/-- `item[column]`: `some` value when the column is present (`null` models a
SQL NULL), `none` when absent (JS `undefined`). -/
def rowGet (r : Row) (c : String) : Option Value := alookup c r

/-- The value of a column for SQL evaluation (a SELECT row carries every
referenced column; an absent one behaves as NULL). -/
def colVal (r : Row) (c : String) : Value := (rowGet r c).getD .null

/-- The comparison operators the builder uses: the keyset comparison
(`>` for `next`, `<` for `prev`) and equality. -/
inductive CmpOp where
  | gt
  | lt
  | eq
deriving DecidableEq

/-- SQL three-valued comparison: a comparison against NULL is never true. -/
def sqlCompare (a b : Value) : Option Ordering :=
  match a, b with
  | .null, _ => none
  | _, .null => none
  | _, _ => some (Value.cmp a b)

/-- Truth of `a op b` in a WHERE clause. -/
def evalOp (op : CmpOp) (a b : Value) : Bool :=
  match sqlCompare a b with
  | none => false
  | some o =>
    match op with
    | .gt => o == .gt
    | .lt => o == .lt
    | .eq => o == .eq

/-- Model of `isDefinedAndNotEmpty`
(`value !== undefined && value !== null && value !== ""`). -/
def isDefinedAndNotEmpty : Option Value → Bool
  | none => false
  | some .null => false
  | some (.str s) => !(s == "")
  | some _ => true

/-- The `columnValues` list computed by `buildCursorWhereCondition`: the
orderBy columns (in orderBy order) that have a defined, non-empty cursor
value, each paired with that value. -/
def columnValues (orderBy : List String) (cursorValues : List (String × Value)) :
    List (String × Value) :=
  (orderBy.filter (fun c => isDefinedAndNotEmpty (alookup c cursorValues))).map
    (fun c => (c, (alookup c cursorValues).getD .null))

/-- The single-pass loop of `buildCursorWhereCondition`'s multi-column case:
`eqAcc` is the conjunction of the accumulated equality conditions of the
previous columns; each step contributes the OR-branch
`eqAcc AND (column op value)`. -/
def cursorLoop (op : CmpOp) (r : Row) : List (String × Value) → Bool → Bool
  | [], _ => false
  | (c, v) :: rest, eqAcc =>
    (eqAcc && evalOp op (colVal r c) v) ||
      cursorLoop op r rest (eqAcc && evalOp .eq (colVal r c) v)

/-- Row-level truth of the WHERE condition added by
`buildCursorWhereCondition` (an empty `columnValues` adds no condition; a
single column is a simple comparison; several columns use the loop). -/
def buildCursorWhereCondition (orderBy : List String)
    (cursorValues : List (String × Value)) (op : CmpOp) (r : Row) : Bool :=
  match columnValues orderBy cursorValues with
  | [] => true
  | [(c, v)] => evalOp op (colVal r c) v
  | cvs => cursorLoop op r cvs true

/-- `direction === "next" ? ">" : "<"`. -/
def comparisonOf : Direction → CmpOp
  | .next => .gt
  | .prev => .lt

/-- The keyset restriction exactly as `paginatedQuery` guards it: applied
only when the `cursorValues` record and `orderBy` are both non-empty. -/
def cursorPredicate (c : CursorData) (r : Row) : Bool :=
  if c.cursorValues.isEmpty || c.orderBy.isEmpty then true
  else buildCursorWhereCondition c.orderBy c.cursorValues (comparisonOf c.direction) r

/-- Case-insensitive substring test (`ILIKE '%value%'`; SQL pattern
metacharacters inside the value are not modelled). -/
def ilikeContains (hay pat : String) : Bool :=
  hay.toLower.data.tails.any (fun t => pat.toLower.data.isPrefixOf t)

/-- One step of the filter fold in `paginatedQuery`: a non-empty string on a
declared text-searchable column becomes `ILIKE '%value%'`, numbers and
booleans become equality, any other entry is ignored. -/
def filterStep (textSearchableColumns : List String) (r : Row)
    (c : String) (v : Value) : Bool :=
  match v with
  | .str s =>
    if textSearchableColumns.contains c && !(s == "") then
      match colVal r c with
      | .str hay => ilikeContains hay s
      | _ => false
    else true
  | .num _ => evalOp .eq (colVal r c) v
  | .bool _ => evalOp .eq (colVal r c) v
  | _ => true

/-- Truth of the filtered query's WHERE clause for one row (the reduce over
`Object.entries(filters)`; chained `where` calls conjoin). -/
def rowMatchesFilters (textSearchableColumns : List String)
    (filters : List (String × Value)) (r : Row) : Bool :=
  filters.all (fun p => filterStep textSearchableColumns r p.1 p.2)

/-- The ordering key of a row: its orderBy column values, in order. -/
def keyOf (cols : List String) (r : Row) : List Value := cols.map (colVal r)

/-- `ORDER BY c₁ dir, c₂ dir, …`: lexicographic comparison of the keys
(ascending is `NULLS LAST`, the Postgres default; `desc` on every column is
its exact reverse, `NULLS FIRST`). -/
def rowCmp (cols : List String) (r₁ r₂ : Row) : Ordering :=
  listCmp Value.cmp (keyOf cols r₁) (keyOf cols r₂)

/-- Boolean sort order of the query result. -/
def rowLeB (dir : Direction) (cols : List String) (r₁ r₂ : Row) : Bool :=
  match dir with
  | .next => !(rowCmp cols r₁ r₂ == .gt)
  | .prev => !(rowCmp cols r₁ r₂ == .lt)

/-- Propositional sort order (for `List.insertionSort`). -/
def rowLe (dir : Direction) (cols : List String) (r₁ r₂ : Row) : Prop :=
  rowLeB dir cols r₁ r₂ = true

instance rowLeDecidable (dir : Direction) (cols : List String) :
    DecidableRel (rowLe dir cols) := fun r₁ r₂ => instDecidableEqBool _ _

theorem rowCmp_swap (cols : List String) (r₁ r₂ : Row) :
    (rowCmp cols r₁ r₂).swap = rowCmp cols r₂ r₁ :=
  listCmp_swap Value.cmp Value.cmp_swap _ _

theorem rowCmp_eq_keys {cols : List String} {a b : Row} (h : rowCmp cols a b = .eq) :
    keyOf cols a = keyOf cols b :=
  (listCmp_eq_iff Value.cmp Value.cmp_eq_iff _ _).mp h

theorem rowCmp_lt_trans {cols : List String} {a b c : Row}
    (h₁ : rowCmp cols a b = .lt) (h₂ : rowCmp cols b c = .lt) : rowCmp cols a c = .lt :=
  listCmp_lt_trans Value.cmp Value.cmp_eq_iff Value.cmp_lt_trans h₁ h₂

theorem rowCmp_gt_trans {cols : List String} {a b c : Row}
    (h₁ : rowCmp cols a b = .gt) (h₂ : rowCmp cols b c = .gt) : rowCmp cols a c = .gt := by
  have h₁s : rowCmp cols b a = .lt := by
    rw [← rowCmp_swap cols a b, h₁]; rfl
  have h₂s : rowCmp cols c b = .lt := by
    rw [← rowCmp_swap cols b c, h₂]; rfl
  have h := rowCmp_lt_trans h₂s h₁s
  rw [← rowCmp_swap cols c a, h]; rfl

theorem rowCmp_trans_ne_gt {cols : List String} {a b c : Row}
    (hab : rowCmp cols a b ≠ .gt) (hbc : rowCmp cols b c ≠ .gt) :
    rowCmp cols a c ≠ .gt := by
  cases h₁ : rowCmp cols a b with
  | gt => exact absurd h₁ hab
  | eq =>
    show listCmp Value.cmp (keyOf cols a) (keyOf cols c) ≠ .gt
    rw [rowCmp_eq_keys h₁]
    exact hbc
  | lt =>
    cases h₂ : rowCmp cols b c with
    | gt => exact absurd h₂ hbc
    | eq =>
      show listCmp Value.cmp (keyOf cols a) (keyOf cols c) ≠ .gt
      rw [← rowCmp_eq_keys h₂]
      show rowCmp cols a b ≠ .gt
      rw [h₁]; simp
    | lt =>
      show rowCmp cols a c ≠ .gt
      rw [rowCmp_lt_trans h₁ h₂]; simp

theorem rowCmp_trans_ne_lt {cols : List String} {a b c : Row}
    (hab : rowCmp cols a b ≠ .lt) (hbc : rowCmp cols b c ≠ .lt) :
    rowCmp cols a c ≠ .lt := by
  cases h₁ : rowCmp cols a b with
  | lt => exact absurd h₁ hab
  | eq =>
    show listCmp Value.cmp (keyOf cols a) (keyOf cols c) ≠ .lt
    rw [rowCmp_eq_keys h₁]
    exact hbc
  | gt =>
    cases h₂ : rowCmp cols b c with
    | lt => exact absurd h₂ hbc
    | eq =>
      show listCmp Value.cmp (keyOf cols a) (keyOf cols c) ≠ .lt
      rw [← rowCmp_eq_keys h₂]
      show rowCmp cols a b ≠ .lt
      rw [h₁]; simp
    | gt =>
      show rowCmp cols a c ≠ .lt
      rw [rowCmp_gt_trans h₁ h₂]; simp

instance rowLeTotal (dir : Direction) (cols : List String) :
    IsTotal Row (rowLe dir cols) := by
  refine ⟨fun a b => ?_⟩
  have h := rowCmp_swap cols a b
  cases dir <;> simp only [rowLe, rowLeB] <;> cases hab : rowCmp cols a b <;>
      rw [hab] at h <;>
      first
        | (left; rfl)
        | (right; rw [← h]; rfl)

theorem ordBeq_false_ne {x y : Ordering} (h : (x == y) = false) : x ≠ y := by
  intro he
  subst he
  cases x <;> exact absurd h (by decide)

theorem ordNe_beq_false {x y : Ordering} (h : x ≠ y) : (x == y) = false := by
  cases x <;> cases y <;> first | rfl | exact absurd rfl h

instance rowLeTrans (dir : Direction) (cols : List String) :
    IsTrans Row (rowLe dir cols) := by
  refine ⟨fun a b c hab hbc => ?_⟩
  cases dir <;> simp only [rowLe, rowLeB, Bool.not_eq_eq_eq_not, Bool.not_true] at hab hbc ⊢
  · exact ordNe_beq_false (rowCmp_trans_ne_gt (ordBeq_false_ne hab) (ordBeq_false_ne hbc))
  · exact ordNe_beq_false (rowCmp_trans_ne_lt (ordBeq_false_ne hab) (ordBeq_false_ne hbc))

/-- All rows of the keyset-bounded, ordered, filtered query, without LIMIT:
WHERE (filters AND keyset), then ORDER BY. -/
def fullQueryRows (textSearchableColumns : List String) (rows : List Row)
    (c : CursorData) : List Row :=
  List.insertionSort (rowLe c.direction c.orderBy)
    ((rows.filter (rowMatchesFilters textSearchableColumns c.filters)).filter
      (cursorPredicate c))

/-- The result of one `paginatedQuery` call. -/
structure PageResult where
  items : List Row
  totalCount : Nat
  hasMore : Bool
deriving DecidableEq

/-- Model of `paginatedQuery`: the total count over the filtered query
(before ORDER BY / keyset / LIMIT), then the bounded fetch with
`LIMIT limit + EXTRA_ITEM_FOR_PAGINATION` (= limit + 1); `hasMore` is
`items.length > limit` on the fetched rows and the lookahead row is trimmed
by `items.slice(0, limit)`. -/
def paginatedQuery (textSearchableColumns : List String) (rows : List Row)
    (decodedCursor : CursorData) : PageResult :=
  let filteredQuery :=
    rows.filter (rowMatchesFilters textSearchableColumns decodedCursor.filters)
  let fetched :=
    (fullQueryRows textSearchableColumns rows decodedCursor).take (decodedCursor.limit + 1)
  { items := fetched.take decodedCursor.limit,
    totalCount := filteredQuery.length,
    hasMore := decide (decodedCursor.limit < fetched.length) }

/-! ## The pagination use case (orchestrator) -/

/-- Model of `getDefaultCursorData` (its `timestamp: Date.now()` becomes a
parameter). -/
def getDefaultCursorData (now : Int) : CursorData :=
  { cursorValues := [], orderBy := ["created_at", "id"], limit := 10,
    direction := .next, filters := [], timestamp := now }

/-- Model of `createCursorData`: copy the current descriptor, replace
`cursorValues` by the item's orderBy-column values (columns the item does
not carry are skipped: `if (item[column] !== undefined)`), refresh the
timestamp. -/
def createCursorData (currentCursor : CursorData) (item : Row) (now : Int) : CursorData :=
  { currentCursor with
    cursorValues :=
      (currentCursor.orderBy.filter (fun c => (rowGet item c).isSome)).map
        (fun c => (c, (rowGet item c).getD .null)),
    timestamp := now }

/-- Model of `createNextCursor`. -/
def createNextCursor (currentCursor : CursorData) (lastItem : Row) (now : Int) : Token :=
  encodeCursor { createCursorData currentCursor lastItem now with direction := .next }

/-- Model of `createPreviousCursor`. -/
def createPreviousCursor (currentCursor : CursorData) (firstItem : Row) (now : Int) : Token :=
  encodeCursor { createCursorData currentCursor firstItem now with direction := .prev }

/-- Model of `parseCursor`: decode when a cursor is present; on any decode
failure log and fall back to the default.  The `{...default, ...decoded}`
spread equals the decoded descriptor because `decodeCursor` returns every
field. -/
def parseCursor (defaultCursorData : CursorData) : Option Token → CursorData
  | none => defaultCursorData
  | some t =>
    match decodeCursor t with
    | .ok d => d
    | .error _ => defaultCursorData

/-- The public `meta` object. -/
structure PaginatedMeta where
  nextCursor : Option Token
  previousCursor : Option Token
  hasMore : Bool
  totalRowCount : Nat

/-- The public `{data, meta}` result. -/
structure PaginatedResult (R : Type) where
  data : List R
  meta : PaginatedMeta

/-- The optional `filters` argument of `paginatedUseCase`
(`Record<"limit" | "direction", string | number | boolean>`). -/
structure Overrides where
  limit : Option Value
  direction : Option Value

/-- `limitSchema.safeParse(filters.limit)` (positive integer or discarded). -/
def overrideLimit : Option Value → Option Nat
  | some (.num n) => if 0 < n then some n.toNat else none
  | _ => none

/-- `directionSchema.safeParse(filters.direction)`. -/
def overrideDirection : Option Value → Option Direction
  | some (.str "next") => some .next
  | some (.str "prev") => some .prev
  | _ => none

/-- The effective descriptor after spreading the validated overrides over
the parsed cursor. -/
def applyOverrides (c : CursorData) (ov : Option Overrides) : CursorData :=
  match ov with
  | none => c
  | some o =>
    { c with
      limit := (overrideLimit o.limit).getD c.limit,
      direction := (overrideDirection o.direction).getD c.direction }

/-- The body of `paginatedUseCase` after descriptor resolution: run the
query, derive the boundary cursors, shape the public result.  `hadCursor`
records whether the request carried a (truthy) `encodedCursor` string. -/
def runPaginated {R : Type} (transformItem : Row → R)
    (paginatedQueryFn : CursorData → PageResult)
    (decodedCursor : CursorData) (hadCursor : Bool) (now : Int) : PaginatedResult R :=
  let page := paginatedQueryFn decodedCursor
  { data := page.items.map transformItem,
    meta :=
      { nextCursor :=
          if page.hasMore && !page.items.isEmpty then
            some (createNextCursor decodedCursor (page.items.getLast?.getD []) now)
          else none,
        previousCursor :=
          if hadCursor && !page.items.isEmpty then
            some (createPreviousCursor decodedCursor (page.items.head?.getD []) now)
          else none,
        hasMore := page.hasMore,
        totalRowCount := page.totalCount } }

/-- Model of `paginatedUseCase` over a concrete data source: resolve the
descriptor (decode with fallback, then spread the validated overrides),
query, derive cursors.  JS treats an empty-string cursor as absent (both
`cursor ? decodeCursor(cursor) : {}` and `encodedCursor && ...` test
truthiness), so the token argument is an `Option`. -/
def paginatedUseCase {R : Type} (transformItem : Row → R)
    (textSearchableColumns : List String) (rows : List Row)
    (defaultDecodedCursor : CursorData) (encodedCursor : Option Token)
    (filters : Option Overrides) (now : Int) : PaginatedResult R :=
  runPaginated transformItem (paginatedQuery textSearchableColumns rows)
    (applyOverrides (parseCursor defaultDecodedCursor encodedCursor) filters)
    encodedCursor.isSome now

/-- Repeated forward traversal: call the use case, then follow
`meta.nextCursor` while it is present, collecting at most `fuel` pages
(the traversal of the no-gap/no-duplicate property). -/
def followNext (textSearchableColumns : List String) (rows : List Row)
    (defaultDecodedCursor : CursorData) (now : Int) :
    Nat → Option Token → List (PaginatedResult Row)
  | 0, _ => []
  | fuel + 1, cur =>
    let r := paginatedUseCase id textSearchableColumns rows defaultDecodedCursor cur none now
    r ::
      (match r.meta.nextCursor with
        | some t => followNext textSearchableColumns rows defaultDecodedCursor now fuel (some t)
        | none => [])

/-! ## Keyset predicate: loop form versus spec disjunction -/

/-- The lexicographic keyset formula in recursive (Horner) form:
`(c₁ op v₁) OR (c₁ = v₁ AND ((c₂ op v₂) OR (c₂ = v₂ AND …)))`. -/
def lexKeyset (op : CmpOp) (r : Row) : List (String × Value) → Bool
  | [] => false
  | (c, v) :: rest =>
    evalOp op (colVal r c) v || (evalOp .eq (colVal r c) v && lexKeyset op r rest)

theorem cursorLoop_eq_lexKeyset (op : CmpOp) (r : Row) :
    ∀ (l : List (String × Value)) (eqAcc : Bool),
      cursorLoop op r l eqAcc = (eqAcc && lexKeyset op r l) := by
  intro l
  induction l with
  | nil => intro eqAcc; simp [cursorLoop, lexKeyset]
  | cons p rest ih =>
    intro eqAcc
    obtain ⟨c, v⟩ := p
    simp only [cursorLoop, lexKeyset, ih]
    cases eqAcc <;> simp [Bool.and_assoc]

theorem buildCursorWhereCondition_eq_lex (ob : List String) (cv : List (String × Value))
    (op : CmpOp) (r : Row) :
    buildCursorWhereCondition ob cv op r =
      (if columnValues ob cv = [] then true
       else lexKeyset op r (columnValues ob cv)) := by
  unfold buildCursorWhereCondition
  cases h : columnValues ob cv with
  | nil => simp
  | cons p rest =>
    obtain ⟨c, v⟩ := p
    cases rest with
    | nil => simp [lexKeyset]
    | cons q rest₂ => simp [cursorLoop_eq_lexKeyset]

theorem columnValues_nil_cursorValues (ob : List String) : columnValues ob [] = [] := by
  simp [columnValues, alookup, isDefinedAndNotEmpty]

theorem cursorPredicate_eq_lex (c : CursorData) (r : Row) :
    cursorPredicate c r =
      (if columnValues c.orderBy c.cursorValues = [] then true
       else lexKeyset (comparisonOf c.direction) r (columnValues c.orderBy c.cursorValues)) := by
  unfold cursorPredicate
  split
  · rename_i h
    have hnil : columnValues c.orderBy c.cursorValues = [] := by
      rcases (by simpa using h :
          c.cursorValues.isEmpty = true ∨ c.orderBy.isEmpty = true) with h₂ | h₂
      · rw [List.isEmpty_iff.mp h₂]
        exact columnValues_nil_cursorValues _
      · rw [List.isEmpty_iff.mp h₂]
        rfl
    simp [hnil]
  · exact buildCursorWhereCondition_eq_lex _ _ _ _

/-- The spec's keyset formula, stated as the flat disjunction
`(c₁ op v₁) OR (c₁ = v₁ AND c₂ op v₂) OR (c₁ = v₁ AND c₂ = v₂ AND c₃ op v₃) OR …`
over a column/value list (written from the spec text, for comparison with
the code's `buildCursorWhereCondition`). -/
def specKeysetDisjunction (cvs : List (String × Value)) (op : CmpOp) (r : Row) : Bool :=
  (List.range cvs.length).any (fun i =>
    ((cvs.take i).all (fun p => evalOp .eq (colVal r p.1) p.2)) &&
      (match cvs[i]? with
        | some p => evalOp op (colVal r p.1) p.2
        | none => false))

theorem any_and_left (l : List α) (a : Bool) (f : α → Bool) :
    l.any (fun x => a && f x) = (a && l.any f) := by
  cases a <;> simp

theorem specKeysetDisjunction_eq_lex (op : CmpOp) (r : Row) :
    ∀ cvs : List (String × Value), specKeysetDisjunction cvs op r = lexKeyset op r cvs := by
  intro cvs
  induction cvs with
  | nil => rfl
  | cons p rest ih =>
    obtain ⟨c, v⟩ := p
    simp only [specKeysetDisjunction] at ih
    simp only [specKeysetDisjunction, lexKeyset, List.length_cons, List.range_succ_eq_map,
      List.any_cons, List.take_zero, List.all_nil, Bool.true_and, List.getElem?_cons_zero,
      List.any_map]
    rw [← ih]
    congr 1
    simp only [Function.comp_def, List.take_succ_cons, List.all_cons, List.getElem?_cons_succ,
      Bool.and_assoc]
    rw [any_and_left]

/-- `paginatedQuery` with the keyset restriction replaced by the spec's
disjunction over exactly the orderBy columns carrying a defined, non-empty
cursor value, and no restriction when there is none (reference point of
claim C1; written from the spec text). -/
def paginatedQuerySpecKeyset (textSearchableColumns : List String) (rows : List Row)
    (c : CursorData) : PageResult :=
  let effective := columnValues c.orderBy c.cursorValues
  let pred : Row → Bool := fun r =>
    if effective = [] then true
    else specKeysetDisjunction effective (comparisonOf c.direction) r
  let filteredQuery := rows.filter (rowMatchesFilters textSearchableColumns c.filters)
  let fetched := (List.insertionSort (rowLe c.direction c.orderBy)
      (filteredQuery.filter pred)).take (c.limit + 1)
  { items := fetched.take c.limit,
    totalCount := filteredQuery.length,
    hasMore := decide (c.limit < fetched.length) }

/-- C1: whenever at least one orderBy column has a defined, non-empty value
in `cursorValues`, `paginatedQuery` restricts the result set by the
disjunction `(c₁ op v₁) OR (c₁ = v₁ AND c₂ op v₂) OR …` taken over exactly
those columns in orderBy order, with `op` `>` for `next` and `<` for
`prev`; and when no orderBy column has such a value, no keyset restriction
is applied.  Stated as: `paginatedQuery` coincides with the spec-side
builder `paginatedQuerySpecKeyset` on every input. -/
theorem claim1_keyset_disjunction (textSearchableColumns : List String) (rows : List Row)
    (c : CursorData) :
    paginatedQuery textSearchableColumns rows c =
      paginatedQuerySpecKeyset textSearchableColumns rows c := by
  have hpred : cursorPredicate c = (fun r =>
      if columnValues c.orderBy c.cursorValues = [] then true
      else specKeysetDisjunction (columnValues c.orderBy c.cursorValues)
        (comparisonOf c.direction) r) := by
    funext r
    rw [cursorPredicate_eq_lex, specKeysetDisjunction_eq_lex]
  unfold paginatedQuery paginatedQuerySpecKeyset fullQueryRows
  rw [hpred]

/-- C6: `paginatedQuery` fetches with `LIMIT limit + 1`; `hasMore` is true
exactly when the fetched row count exceeds `limit` (equivalently, when the
unbounded result has more than `limit` rows), and the returned items are
the fetched rows with the lookahead row trimmed, so at most `limit` of the
unbounded result's first rows. -/
theorem claim6_lookahead_trim (textSearchableColumns : List String) (rows : List Row)
    (c : CursorData) :
    (paginatedQuery textSearchableColumns rows c).items =
        (fullQueryRows textSearchableColumns rows c).take c.limit ∧
      ((paginatedQuery textSearchableColumns rows c).hasMore = true ↔
        c.limit < (fullQueryRows textSearchableColumns rows c).length) ∧
      (paginatedQuery textSearchableColumns rows c).items.length ≤ c.limit := by
  refine ⟨?_, ?_, ?_⟩
  · show ((fullQueryRows textSearchableColumns rows c).take (c.limit + 1)).take c.limit = _
    rw [List.take_take]
    congr 1
    omega
  · show decide (c.limit <
        ((fullQueryRows textSearchableColumns rows c).take (c.limit + 1)).length) = true ↔ _
    simp only [decide_eq_true_eq, List.length_take]
    omega
  · show (((fullQueryRows textSearchableColumns rows c).take (c.limit + 1)).take
        c.limit).length ≤ c.limit
    simp [List.length_take]

/-- C8: the `totalCount` of `paginatedQuery` is the number of rows matching
the filter predicate alone, computed before any keyset bound; descriptors
agreeing on `filters` yield the same `totalCount` regardless of
`cursorValues`, `direction` and `limit`. -/
theorem claim8_totalCount_filters_only (textSearchableColumns : List String)
    (rows : List Row) (c₁ c₂ : CursorData) (h : c₁.filters = c₂.filters) :
    (paginatedQuery textSearchableColumns rows c₁).totalCount =
        (paginatedQuery textSearchableColumns rows c₂).totalCount ∧
      (paginatedQuery textSearchableColumns rows c₁).totalCount =
        (rows.filter (rowMatchesFilters textSearchableColumns c₁.filters)).length := by
  constructor
  · show (rows.filter (rowMatchesFilters textSearchableColumns c₁.filters)).length =
      (rows.filter (rowMatchesFilters textSearchableColumns c₂.filters)).length
    rw [h]
  · rfl

/-- Witness for C8 at a concrete input: two descriptors over the same rows
with equal filters but different cursor values, direction and limit. -/
theorem claim8_totalCount_filters_only_witness :
    (CursorData.filters
          { cursorValues := [("id", Value.num 3)], orderBy := ["id"], limit := 2,
            direction := .next, filters := [("age", Value.num 20)], timestamp := 0 } =
        CursorData.filters
          { cursorValues := [], orderBy := ["id"], limit := 5,
            direction := .prev, filters := [("age", Value.num 20)], timestamp := 9 }) ∧
      ((paginatedQuery [] [[("id", Value.num 1), ("age", Value.num 20)],
            [("id", Value.num 2), ("age", Value.num 30)]]
          { cursorValues := [("id", Value.num 3)], orderBy := ["id"], limit := 2,
            direction := .next, filters := [("age", Value.num 20)], timestamp := 0 }).totalCount =
        (paginatedQuery [] [[("id", Value.num 1), ("age", Value.num 20)],
            [("id", Value.num 2), ("age", Value.num 30)]]
          { cursorValues := [], orderBy := ["id"], limit := 5,
            direction := .prev, filters := [("age", Value.num 20)], timestamp := 9 }).totalCount ∧
      (paginatedQuery [] [[("id", Value.num 1), ("age", Value.num 20)],
            [("id", Value.num 2), ("age", Value.num 30)]]
          { cursorValues := [("id", Value.num 3)], orderBy := ["id"], limit := 2,
            direction := .next, filters := [("age", Value.num 20)], timestamp := 0 }).totalCount =
        ([[("id", Value.num 1), ("age", Value.num 20)],
            [("id", Value.num 2), ("age", Value.num 30)]].filter
          (rowMatchesFilters [] [("age", Value.num 20)])).length) :=
  ⟨rfl, claim8_totalCount_filters_only _ _ _ _ rfl⟩

theorem alookup_filter_mem {cv : List (String × Value)} {ob : List String} {c : String}
    (hc : c ∈ ob) :
    alookup c (cv.filter (fun p => decide (p.1 ∈ ob))) = alookup c cv := by
  induction cv with
  | nil => rfl
  | cons p rest ih =>
    obtain ⟨k, v⟩ := p
    by_cases hk : k = c
    · subst hk
      simp [List.filter_cons, hc, alookup]
    · by_cases hkb : k ∈ ob
      · simp [List.filter_cons, hkb, alookup, hk, ih]
      · simp [List.filter_cons, hkb, alookup, hk, ih]

theorem columnValues_filter_orderBy (ob : List String) (cv : List (String × Value)) :
    columnValues ob (cv.filter (fun p => decide (p.1 ∈ ob))) = columnValues ob cv := by
  unfold columnValues
  have hfil : ob.filter
        (fun c => isDefinedAndNotEmpty (alookup c (cv.filter (fun p => decide (p.1 ∈ ob))))) =
      ob.filter (fun c => isDefinedAndNotEmpty (alookup c cv)) :=
    List.filter_congr (fun c hc => by rw [alookup_filter_mem hc])
  rw [hfil]
  refine List.map_congr_left (fun c hc => ?_)
  rw [alookup_filter_mem (List.mem_of_mem_filter hc)]

/-- C10: `cursorValues` entries whose key is not in `orderBy` never
influence the query: removing them leaves the entire `paginatedQuery`
result (items, totalCount, hasMore) unchanged. -/
theorem claim10_extraneous_cursor_values (textSearchableColumns : List String)
    (rows : List Row) (c : CursorData) :
    paginatedQuery textSearchableColumns rows c =
      paginatedQuery textSearchableColumns rows
        { c with cursorValues :=
            c.cursorValues.filter (fun p => decide (p.1 ∈ c.orderBy)) } := by
  have hpred : ∀ r, cursorPredicate c r = cursorPredicate
      { c with cursorValues :=
          c.cursorValues.filter (fun p => decide (p.1 ∈ c.orderBy)) } r := by
    intro r
    rw [cursorPredicate_eq_lex, cursorPredicate_eq_lex]
    simp only [columnValues_filter_orderBy]
  unfold paginatedQuery fullQueryRows
  rw [funext hpred]

/-! ## Claims on the codec and the orchestrator -/

deriving instance DecidableEq for Except

/-- C3 counterexample: the round trip is not the identity on every valid
descriptor.  A `cursorValues` entry holding the plain string
`"2025-01-01T00:00:00.000Z"` is revived as a `Date` by `decodeCursor`, so
`decodeCursor (encodeCursor d) ≠ d` for this valid descriptor. -/
theorem claim3_roundtrip_counterexample :
    decodeCursor (encodeCursor
        { cursorValues := [("a", Value.str "2025-01-01T00:00:00.000Z")],
          orderBy := ["a"], limit := 10, direction := .next,
          filters := [], timestamp := 0 }) ≠
      .ok { cursorValues := [("a", Value.str "2025-01-01T00:00:00.000Z")],
            orderBy := ["a"], limit := 10, direction := .next,
            filters := [], timestamp := 0 } := by decide

/-- C3 (amended): `decodeCursor (encodeCursor d) = d` for every valid
descriptor `d` (positive limit, scalar filter values) whose `cursorValues`
are codec-stable: no plain string matching the ISO-8601 pattern, and every
`Date` field-valid with a four-digit year.  The documented temporal-string
heuristic makes exactly the excluded values fail. -/
theorem claim3_roundtrip_amended (c : CursorData)
    (hlim : 0 < c.limit)
    (hfil : ∀ p ∈ c.filters, filterableValue p.2 = true)
    (hcv : ∀ p ∈ c.cursorValues, codecStable p.2) :
    decodeCursor (encodeCursor c) = .ok c :=
  decodeCursor_encodeCursor hlim hfil hcv

/-- Witness for the amended C3 at a concrete descriptor containing a valid
`Date`, a non-ISO string, a filter and a positive limit. -/
theorem claim3_roundtrip_amended_witness :
    (0 < CursorData.limit
        { cursorValues := [("created_at", Value.date ⟨2025, 1, 2, 3, 4, 5, 6⟩),
            ("id", Value.str "abc")],
          orderBy := ["created_at", "id"], limit := 10, direction := .next,
          filters := [("name", Value.str "Chris")], timestamp := 1700000000 } ∧
      (∀ p ∈ CursorData.filters
          { cursorValues := [("created_at", Value.date ⟨2025, 1, 2, 3, 4, 5, 6⟩),
              ("id", Value.str "abc")],
            orderBy := ["created_at", "id"], limit := 10, direction := .next,
            filters := [("name", Value.str "Chris")], timestamp := 1700000000 },
        filterableValue p.2 = true) ∧
      (∀ p ∈ CursorData.cursorValues
          { cursorValues := [("created_at", Value.date ⟨2025, 1, 2, 3, 4, 5, 6⟩),
              ("id", Value.str "abc")],
            orderBy := ["created_at", "id"], limit := 10, direction := .next,
            filters := [("name", Value.str "Chris")], timestamp := 1700000000 },
        codecStable p.2)) ∧
    decodeCursor (encodeCursor
        { cursorValues := [("created_at", Value.date ⟨2025, 1, 2, 3, 4, 5, 6⟩),
            ("id", Value.str "abc")],
          orderBy := ["created_at", "id"], limit := 10, direction := .next,
          filters := [("name", Value.str "Chris")], timestamp := 1700000000 }) =
      .ok { cursorValues := [("created_at", Value.date ⟨2025, 1, 2, 3, 4, 5, 6⟩),
              ("id", Value.str "abc")],
            orderBy := ["created_at", "id"], limit := 10, direction := .next,
            filters := [("name", Value.str "Chris")], timestamp := 1700000000 } :=
  ⟨⟨by decide, by decide, by decide⟩,
    claim3_roundtrip_amended _ (by decide) (by decide) (by decide)⟩

/-- C9 counterexample: `paginatedQuery` with an empty `orderBy` does not
fail — there is no `InvalidDescriptor` error anywhere in the builder; at
this concrete input it returns an ordinary page result. -/
theorem claim9_empty_orderBy_counterexample :
    paginatedQuery [] [[("id", Value.num 1)]]
        { cursorValues := [("id", Value.num 5)], orderBy := [], limit := 10,
          direction := .next, filters := [], timestamp := 0 } =
      { items := [[("id", Value.num 1)]], totalCount := 1, hasMore := false } := by decide

theorem pairwise_of_total {R : α → α → Prop} (htrue : ∀ a b, R a b) :
    ∀ l : List α, l.Pairwise R := by
  intro l
  induction l with
  | nil => exact List.Pairwise.nil
  | cons a t ih => exact List.Pairwise.cons (fun b hb => htrue a b) ih

/-- C9 (amended): calling `paginatedQuery` with an empty `orderBy` is not
rejected: the query runs with no ORDER BY clause and no keyset restriction
(the cursor values are ignored), returning a normal page of the filtered
rows in source order. -/
theorem claim9_empty_orderBy_amended (textSearchableColumns : List String)
    (rows : List Row) (c : CursorData) (h : c.orderBy = []) :
    paginatedQuery textSearchableColumns rows c =
      { items := (rows.filter (rowMatchesFilters textSearchableColumns c.filters)).take c.limit,
        totalCount := (rows.filter (rowMatchesFilters textSearchableColumns c.filters)).length,
        hasMore := decide (c.limit <
          (rows.filter (rowMatchesFilters textSearchableColumns c.filters)).length) } := by
  have hpred : cursorPredicate c = fun _ => true := by
    funext r
    unfold cursorPredicate
    rw [h]
    simp
  have hle : ∀ r₁ r₂ : Row, rowLe c.direction c.orderBy r₁ r₂ := by
    intro r₁ r₂
    unfold rowLe rowLeB rowCmp keyOf
    rw [h]
    cases c.direction <;> rfl
  unfold paginatedQuery fullQueryRows
  rw [hpred]
  simp only [List.filter_true]
  rw [List.Sorted.insertionSort_eq (pairwise_of_total hle _)]
  have hlen : ∀ l : List Row, ((l.take (c.limit + 1)).take c.limit) = l.take c.limit := by
    intro l
    rw [List.take_take]
    congr 1
    omega
  have hmore : ∀ l : List Row,
      decide (c.limit < (l.take (c.limit + 1)).length) = decide (c.limit < l.length) := by
    intro l
    rw [decide_eq_decide]
    rw [List.length_take]
    omega
  rw [hlen, hmore]

/-- Witness for the amended C9 at a concrete input. -/
theorem claim9_empty_orderBy_amended_witness :
    (CursorData.orderBy
        { cursorValues := [("id", Value.num 5)], orderBy := [], limit := 10,
          direction := .next, filters := [], timestamp := 0 } = []) ∧
    paginatedQuery [] [[("id", Value.num 1)]]
        { cursorValues := [("id", Value.num 5)], orderBy := [], limit := 10,
          direction := .next, filters := [], timestamp := 0 } =
      { items := ([[("id", Value.num 1)]].filter (rowMatchesFilters [] [])).take 10,
        totalCount := ([[("id", Value.num 1)]].filter (rowMatchesFilters [] [])).length,
        hasMore := decide ((10 : Nat) <
          ([[("id", Value.num 1)]].filter (rowMatchesFilters [] [])).length) } :=
  ⟨rfl, claim9_empty_orderBy_amended [] [[("id", Value.num 1)]] _ rfl⟩

/-- C7: when `decodeCursor` fails on the supplied token, `paginatedUseCase`
never propagates the error: it substitutes the component-supplied default
descriptor (with the validated overrides still applied) and returns the
normal `PaginatedResult` computed from it.  The accompanying logging is a
side effect outside the embedding. -/
theorem claim7_decode_failure_absorbed {R : Type} (transformItem : Row → R)
    (textSearchableColumns : List String) (rows : List Row)
    (defaultDecodedCursor : CursorData) (t : Token) (ov : Option Overrides)
    (now : Int) (e : DecodeError) (h : decodeCursor t = .error e) :
    paginatedUseCase transformItem textSearchableColumns rows defaultDecodedCursor
        (some t) ov now =
      runPaginated transformItem (paginatedQuery textSearchableColumns rows)
        (applyOverrides defaultDecodedCursor ov) true now := by
  simp only [paginatedUseCase, parseCursor, h, Option.isSome_some]

/-- Witness for C7: the literal `"invalid-cursor"` token (whose base64
payload is not JSON) is absorbed and the default descriptor is used. -/
theorem claim7_decode_failure_absorbed_witness :
    (decodeCursor (Token.garbage "invalid-cursor") = .error .invalidFormat) ∧
    paginatedUseCase id [] [[("id", Value.num 1)]] (getDefaultCursorData 0)
        (some (Token.garbage "invalid-cursor")) none 0 =
      runPaginated id (paginatedQuery [] [[("id", Value.num 1)]])
        (applyOverrides (getDefaultCursorData 0) none) true 0 :=
  ⟨rfl, claim7_decode_failure_absorbed id [] [[("id", Value.num 1)]]
    (getDefaultCursorData 0) (Token.garbage "invalid-cursor") none 0 .invalidFormat rfl⟩

/-- C4 counterexample: with a syntactically invalid cursor and a non-empty
result, `paginatedUseCase` sets `meta.previousCursor` (the invalid cursor
string is truthy in `encodedCursor && items.length > 0`), while the
no-cursor call leaves it undefined — so the two results are not
identical. -/
theorem claim4_invalid_cursor_counterexample :
    (paginatedUseCase id [] [[("created_at", Value.num 1), ("id", Value.num 1)]]
        (getDefaultCursorData 0) (some (Token.garbage "invalid-cursor")) none
        0).meta.previousCursor.isSome = true ∧
    (paginatedUseCase id [] [[("created_at", Value.num 1), ("id", Value.num 1)]]
        (getDefaultCursorData 0) none none 0).meta.previousCursor.isSome = false ∧
    paginatedUseCase id [] [[("created_at", Value.num 1), ("id", Value.num 1)]]
        (getDefaultCursorData 0) (some (Token.garbage "invalid-cursor")) none 0 ≠
      paginatedUseCase id [] [[("created_at", Value.num 1), ("id", Value.num 1)]]
        (getDefaultCursorData 0) none none 0 := by
  refine ⟨rfl, rfl, fun hEq => ?_⟩
  have h2 := congrArg (fun r => r.meta.previousCursor.isSome) hEq
  exact absurd h2 (by decide)

/-- C4 (amended): with a token `decodeCursor` rejects, `paginatedUseCase`
succeeds and returns the same `data`, `hasMore`, `totalRowCount` and
`nextCursor` as the call with no cursor at all; `meta.previousCursor`
alone differs — it is set (from the first page item, direction `prev`)
whenever at least one item is returned, because the invalid cursor string
still counts as "a cursor was supplied". -/
theorem claim4_invalid_cursor_amended {R : Type} (transformItem : Row → R)
    (textSearchableColumns : List String) (rows : List Row)
    (defaultDecodedCursor : CursorData) (t : Token) (now : Int) (e : DecodeError)
    (h : decodeCursor t = .error e) :
    (paginatedUseCase transformItem textSearchableColumns rows defaultDecodedCursor
          (some t) none now).data =
      (paginatedUseCase transformItem textSearchableColumns rows defaultDecodedCursor
          none none now).data ∧
    (paginatedUseCase transformItem textSearchableColumns rows defaultDecodedCursor
          (some t) none now).meta.hasMore =
      (paginatedUseCase transformItem textSearchableColumns rows defaultDecodedCursor
          none none now).meta.hasMore ∧
    (paginatedUseCase transformItem textSearchableColumns rows defaultDecodedCursor
          (some t) none now).meta.totalRowCount =
      (paginatedUseCase transformItem textSearchableColumns rows defaultDecodedCursor
          none none now).meta.totalRowCount ∧
    (paginatedUseCase transformItem textSearchableColumns rows defaultDecodedCursor
          (some t) none now).meta.nextCursor =
      (paginatedUseCase transformItem textSearchableColumns rows defaultDecodedCursor
          none none now).meta.nextCursor ∧
    (paginatedUseCase transformItem textSearchableColumns rows defaultDecodedCursor
          (some t) none now).meta.previousCursor =
      (if (paginatedQuery textSearchableColumns rows defaultDecodedCursor).items.isEmpty
        then none
        else some (createPreviousCursor defaultDecodedCursor
          ((paginatedQuery textSearchableColumns rows
            defaultDecodedCursor).items.head?.getD []) now)) := by
  refine ⟨?_, ?_, ?_, ?_, ?_⟩ <;>
    simp only [paginatedUseCase, parseCursor, h, applyOverrides, runPaginated,
      Option.isSome_some, Option.isSome_none, Bool.true_and, Bool.false_and,
      Bool.false_eq_true] <;>
    first
      | rfl
      | simp

/-- Witness for the amended C4 at a concrete input (one row, the literal
`"invalid-cursor"` token). -/
theorem claim4_invalid_cursor_amended_witness :
    (decodeCursor (Token.garbage "invalid-cursor") = .error .invalidFormat) ∧
    ((paginatedUseCase id [] [[("created_at", Value.num 1), ("id", Value.num 1)]]
          (getDefaultCursorData 0) (some (Token.garbage "invalid-cursor")) none 0).data =
      (paginatedUseCase id [] [[("created_at", Value.num 1), ("id", Value.num 1)]]
          (getDefaultCursorData 0) none none 0).data ∧
    (paginatedUseCase id [] [[("created_at", Value.num 1), ("id", Value.num 1)]]
          (getDefaultCursorData 0) (some (Token.garbage "invalid-cursor")) none 0).meta.hasMore =
      (paginatedUseCase id [] [[("created_at", Value.num 1), ("id", Value.num 1)]]
          (getDefaultCursorData 0) none none 0).meta.hasMore ∧
    (paginatedUseCase id [] [[("created_at", Value.num 1), ("id", Value.num 1)]]
          (getDefaultCursorData 0) (some (Token.garbage "invalid-cursor")) none
          0).meta.totalRowCount =
      (paginatedUseCase id [] [[("created_at", Value.num 1), ("id", Value.num 1)]]
          (getDefaultCursorData 0) none none 0).meta.totalRowCount ∧
    (paginatedUseCase id [] [[("created_at", Value.num 1), ("id", Value.num 1)]]
          (getDefaultCursorData 0) (some (Token.garbage "invalid-cursor")) none
          0).meta.nextCursor =
      (paginatedUseCase id [] [[("created_at", Value.num 1), ("id", Value.num 1)]]
          (getDefaultCursorData 0) none none 0).meta.nextCursor ∧
    (paginatedUseCase id [] [[("created_at", Value.num 1), ("id", Value.num 1)]]
          (getDefaultCursorData 0) (some (Token.garbage "invalid-cursor")) none
          0).meta.previousCursor =
      (if (paginatedQuery [] [[("created_at", Value.num 1), ("id", Value.num 1)]]
            (getDefaultCursorData 0)).items.isEmpty
        then none
        else some (createPreviousCursor (getDefaultCursorData 0)
          ((paginatedQuery [] [[("created_at", Value.num 1), ("id", Value.num 1)]]
            (getDefaultCursorData 0)).items.head?.getD []) 0))) :=
  ⟨rfl, claim4_invalid_cursor_amended id [] _ (getDefaultCursorData 0)
    (Token.garbage "invalid-cursor") 0 .invalidFormat rfl⟩

/-- The descriptor whose encoding the spec says a boundary cursor carries:
orderBy, limit and filters copied forward from the effective descriptor,
`cursorValues` replaced by the item's orderBy-column values (columns the
item does not carry are skipped), the given direction, and the refreshed
timestamp (written from the spec text, for comparison with
`createNextCursor` / `createPreviousCursor`). -/
def specBoundaryDescriptor (d : CursorData) (item : Row) (dir : Direction) (now : Int) :
    CursorData :=
  { cursorValues := (d.orderBy.filter (fun c => (rowGet item c).isSome)).map
      (fun c => (c, (rowGet item c).getD .null)),
    orderBy := d.orderBy, limit := d.limit, direction := dir,
    filters := d.filters, timestamp := now }

/-- C5: `meta.nextCursor` is defined exactly when `hasMore` is true and at
least one item was returned, and it then encodes the descriptor carrying
forward the effective orderBy, limit and filters with `cursorValues`
replaced by the orderBy-column values of the **last** item,
`direction = next` and a refreshed timestamp; `meta.previousCursor` is
defined exactly when the request carried an input cursor and at least one
item was returned, encoding the same construction from the **first** item
with `direction = prev`. -/
theorem claim5_boundary_cursors {R : Type} (transformItem : Row → R)
    (textSearchableColumns : List String) (rows : List Row)
    (defaultDecodedCursor : CursorData) (encodedCursor : Option Token)
    (ov : Option Overrides) (now : Int) :
    (let d := applyOverrides (parseCursor defaultDecodedCursor encodedCursor) ov
     let page := paginatedQuery textSearchableColumns rows d
     let result := paginatedUseCase transformItem textSearchableColumns rows
       defaultDecodedCursor encodedCursor ov now
     result.meta.nextCursor =
        (if page.hasMore && !page.items.isEmpty
          then some (encodeCursor
            (specBoundaryDescriptor d (page.items.getLast?.getD []) .next now))
          else none) ∧
      result.meta.previousCursor =
        (if encodedCursor.isSome && !page.items.isEmpty
          then some (encodeCursor
            (specBoundaryDescriptor d (page.items.head?.getD []) .prev now))
          else none)) :=
  ⟨rfl, rfl⟩

/-! ## Forward traversal (no-gap / no-duplicate)

Machinery for the traversal claim: rows whose orderBy values are defined,
non-empty and codec-stable, with pairwise-distinct key tuples, paginate
without gaps or duplicates. -/

/-- A key value fit for keyset pagination: present, non-null, not the empty
string (else `isDefinedAndNotEmpty` drops its keyset term), and stable
under the cursor codec (else the decoded cursor compares a different
value). -/
def goodKeyValue : Option Value → Prop
  | none => False
  | some .null => False
  | some (.str s) => s ≠ "" ∧ parseISOChars s.data = none
  | some (.date d) => ValidDate d ∧ d.year < 10000
  | some (.num _) => True
  | some (.bool _) => True

instance : DecidablePred goodKeyValue := fun o => by
  rcases o with _ | v
  · exact inferInstanceAs (Decidable False)
  · cases v <;> simp only [goodKeyValue] <;> infer_instance

/-- A row fit for keyset pagination over the given orderBy columns. -/
def GoodRow (cols : List String) (r : Row) : Prop :=
  ∀ c ∈ cols, goodKeyValue (rowGet r c)

instance (cols : List String) (r : Row) : Decidable (GoodRow cols r) :=
  inferInstanceAs (Decidable (∀ c ∈ cols, goodKeyValue (rowGet r c)))

theorem goodKeyValue_isSome {o : Option Value} (h : goodKeyValue o) : o.isSome = true := by
  rcases o with _ | v
  · exact absurd h (by simp [goodKeyValue])
  · rfl

theorem rowGet_eq_some_colVal {r : Row} {c : String} (h : goodKeyValue (rowGet r c)) :
    rowGet r c = some (colVal r c) := by
  unfold colVal
  rcases hg : rowGet r c with _ | v
  · rw [hg] at h; exact absurd h (by simp [goodKeyValue])
  · rfl

theorem goodKeyValue_defined {o : Option Value} (h : goodKeyValue o) :
    isDefinedAndNotEmpty o = true := by
  rcases o with _ | v
  · exact absurd h (by simp [goodKeyValue])
  · cases v <;> simp_all [goodKeyValue, isDefinedAndNotEmpty]

theorem goodKeyValue_stable {o : Option Value} (h : goodKeyValue o) :
    codecStable (o.getD .null) := by
  rcases o with _ | v
  · exact absurd h (by simp [goodKeyValue])
  · cases v <;> simp_all [goodKeyValue, codecStable]

theorem goodKeyValue_ne_null {o : Option Value} (h : goodKeyValue o) :
    o.getD .null ≠ .null := by
  rcases o with _ | v
  · exact absurd h (by simp [goodKeyValue])
  · cases v <;> simp_all [goodKeyValue]

theorem GoodRow.colVal_ne_null {cols : List String} {r : Row} (h : GoodRow cols r) :
    ∀ c ∈ cols, colVal r c ≠ .null :=
  fun c hc => goodKeyValue_ne_null (h c hc)

theorem evalOp_gt_of_ne_null {a b : Value} (ha : a ≠ .null) (hb : b ≠ .null) :
    evalOp .gt a b = (Value.cmp a b == .gt) := by
  unfold evalOp sqlCompare
  cases a <;> cases b <;>
    first
      | exact absurd rfl ha
      | exact absurd rfl hb
      | rfl

theorem evalOp_eqop_of_ne_null {a b : Value} (ha : a ≠ .null) (hb : b ≠ .null) :
    evalOp .eq a b = (Value.cmp a b == .eq) := by
  unfold evalOp sqlCompare
  cases a <;> cases b <;>
    first
      | exact absurd rfl ha
      | exact absurd rfl hb
      | rfl

theorem listCmp_cons_gt (f : α → α → Ordering) (a b : α) (as bs : List α) :
    (listCmp f (a :: as) (b :: bs) == .gt) =
      ((f a b == .gt) || ((f a b == .eq) && (listCmp f as bs == .gt))) := by
  cases h : f a b <;> cases h2 : listCmp f as bs <;> simp only [listCmp, h, h2] <;> decide

theorem lexKeyset_eq_rowCmp {cols : List String} {r r0 : Row}
    (hr : ∀ c ∈ cols, colVal r c ≠ .null) (hr0 : ∀ c ∈ cols, colVal r0 c ≠ .null) :
    lexKeyset .gt r (cols.map (fun c => (c, colVal r0 c))) =
      (rowCmp cols r r0 == .gt) := by
  induction cols with
  | nil => rfl
  | cons c cs ih =>
    have h1 : colVal r c ≠ .null := hr c (by simp)
    have h2 : colVal r0 c ≠ .null := hr0 c (by simp)
    simp only [List.map_cons, lexKeyset, evalOp_gt_of_ne_null h1 h2,
      evalOp_eqop_of_ne_null h1 h2]
    rw [ih (fun x hx => hr x (by simp [hx])) (fun x hx => hr0 x (by simp [hx]))]
    rw [show rowCmp (c :: cs) r r0 =
      listCmp Value.cmp (colVal r c :: keyOf cs r) (colVal r0 c :: keyOf cs r0) from rfl]
    rw [listCmp_cons_gt]
    rfl

theorem alookup_map_self {cols : List String} {f : String → Value} {c : String} (hc : c ∈ cols) :
    alookup c (cols.map (fun x => (x, f x))) = some (f c) := by
  induction cols with
  | nil => cases hc
  | cons x xs ih =>
    by_cases hx : x = c
    · subst hx; simp [alookup]
    · have hcx : c ∈ xs := by
        rcases List.mem_cons.mp hc with h | h
        · exact absurd h.symm hx
        · exact h
      simp [alookup, hx, ih hcx]

theorem columnValues_map_key {cols : List String} {r0 : Row} (h : GoodRow cols r0) :
    columnValues cols (cols.map (fun c => (c, colVal r0 c))) =
      cols.map (fun c => (c, colVal r0 c)) := by
  unfold columnValues
  have hfil : cols.filter
      (fun c => isDefinedAndNotEmpty (alookup c (cols.map (fun x => (x, colVal r0 x))))) =
        cols := by
    apply List.filter_eq_self.mpr
    intro c hc
    rw [alookup_map_self hc, ← rowGet_eq_some_colVal (h c hc)]
    exact goodKeyValue_defined (h c hc)
  rw [hfil]
  refine List.map_congr_left (fun c hc => ?_)
  rw [alookup_map_self hc]
  rfl

theorem cursorPredicate_page {d : CursorData} {r0 : Row}
    (hob : d.orderBy ≠ [])
    (hcv : d.cursorValues = d.orderBy.map (fun c => (c, colVal r0 c)))
    (hdir : d.direction = .next)
    (hr0 : GoodRow d.orderBy r0) {r : Row} (hr : GoodRow d.orderBy r) :
    cursorPredicate d r = (rowCmp d.orderBy r r0 == .gt) := by
  rw [cursorPredicate_eq_lex, hcv, hdir, columnValues_map_key hr0]
  rw [if_neg (by simp [hob])]
  exact lexKeyset_eq_rowCmp (GoodRow.colVal_ne_null hr) (GoodRow.colVal_ne_null hr0)

/-- Strict ordering of rows by key. -/
def keyLt (cols : List String) (r₁ r₂ : Row) : Prop := rowCmp cols r₁ r₂ = .lt

theorem rowCmp_self (cols : List String) (r : Row) : rowCmp cols r r = .eq :=
  (listCmp_eq_iff Value.cmp Value.cmp_eq_iff _ _).mpr rfl

instance keyLtAntisymm (cols : List String) : IsAntisymm Row (keyLt cols) := by
  refine ⟨fun a b hab hba => ?_⟩
  have h := rowCmp_lt_trans hab hba
  rw [rowCmp_self] at h
  exact Ordering.noConfusion h

theorem pairwise_keyLt_of_sorted_nodup {cols : List String} {l : List Row}
    (hs : l.Pairwise (rowLe .next cols)) (hn : (l.map (keyOf cols)).Nodup) :
    l.Pairwise (keyLt cols) := by
  have hne : l.Pairwise (fun a b => keyOf cols a ≠ keyOf cols b) := List.pairwise_map.mp hn
  refine (hs.and hne).imp ?_
  rintro a b ⟨h1, h2⟩
  have hgt : rowCmp cols a b ≠ .gt := by
    intro hg
    rw [rowLe, rowLeB, hg] at h1
    exact absurd h1 (by decide)
  cases hc : rowCmp cols a b with
  | lt => exact hc
  | eq => exact absurd (rowCmp_eq_keys hc) h2
  | gt => exact absurd hc hgt

theorem filter_gt_eq_drop {cols : List String} :
    ∀ (A B : List Row) (r0 : Row),
      (A ++ r0 :: B).Pairwise (keyLt cols) →
      (A ++ r0 :: B).filter (fun r => rowCmp cols r r0 == .gt) = B := by
  intro A
  induction A with
  | nil =>
    intro B r0 hp
    rw [List.nil_append, List.filter_cons_of_neg (by
      show ¬(rowCmp cols r0 r0 == Ordering.gt) = true
      rw [rowCmp_self]; decide)]
    apply List.filter_eq_self.mpr
    intro b hb
    have hlt : keyLt cols r0 b := (List.pairwise_cons.mp hp).1 b hb
    show (rowCmp cols b r0 == Ordering.gt) = true
    rw [← rowCmp_swap cols r0 b, hlt]
    rfl
  | cons a A2 ih =>
    intro B r0 hp
    have hlt : keyLt cols a r0 := (List.pairwise_cons.mp hp).1 r0 (by simp)
    rw [List.cons_append, List.filter_cons_of_neg (by
      show ¬(rowCmp cols a r0 == Ordering.gt) = true
      rw [hlt]; decide)]
    exact ih B r0 (List.pairwise_cons.mp hp).2

theorem eq_of_perm_of_keyLt {cols : List String} {l₁ l₂ : List Row}
    (hp : List.Perm l₁ l₂) (h₁ : l₁.Pairwise (keyLt cols)) (h₂ : l₂.Pairwise (keyLt cols)) :
    l₁ = l₂ :=
  List.eq_of_perm_of_sorted hp h₁ h₂

/-- Relating the sorted filtered rows to a suffix of the full sorted list:
with pairwise-distinct keys, filtering the source by "key greater than the
key of the sorted list's `i`-th row" and sorting yields exactly the suffix
after position `i`. -/
theorem sort_filter_eq_drop {cols : List String} {rows S : List Row} {i : Nat}
    (hS : S = List.insertionSort (rowLe .next cols) rows)
    (hi : i < rows.length) (hn : (rows.map (keyOf cols)).Nodup) :
    List.insertionSort (rowLe .next cols)
        (rows.filter (fun r => rowCmp cols r (S.getD i []) == .gt)) =
      S.drop (i + 1) := by
  have hperm : List.Perm S rows := hS ▸ List.perm_insertionSort _ _
  have hSlen : S.length = rows.length := hperm.length_eq
  have hiS : i < S.length := by rw [hSlen]; exact hi
  have hsorted : S.Pairwise (rowLe .next cols) := hS ▸ List.sorted_insertionSort _ _
  have hnS : (S.map (keyOf cols)).Nodup := ((hperm.map (keyOf cols)).nodup_iff).mpr hn
  have hpS : S.Pairwise (keyLt cols) := pairwise_keyLt_of_sorted_nodup hsorted hnS
  have hsplit : S.take i ++ (S.getD i []) :: S.drop (i + 1) = S := by
    rw [List.getD_eq_getElem?_getD, List.getElem?_eq_getElem hiS]
    show S.take i ++ S[i] :: S.drop (i + 1) = S
    rw [List.getElem_cons_drop]
    exact List.take_append_drop i S
  have hfilS : S.filter (fun r => rowCmp cols r (S.getD i []) == .gt) = S.drop (i + 1) := by
    have h2 := filter_gt_eq_drop (S.take i) (S.drop (i + 1)) (S.getD i [])
      (by rw [hsplit]; exact hpS)
    rw [hsplit] at h2
    exact h2
  have hpermF : List.Perm (rows.filter (fun r => rowCmp cols r (S.getD i []) == .gt))
      (S.drop (i + 1)) := by
    rw [← hfilS]
    exact hperm.symm.filter _
  have hsubB : List.Sublist (S.drop (i + 1)) S := List.drop_sublist _ _
  refine eq_of_perm_of_keyLt ((List.perm_insertionSort _ _).trans hpermF) ?_ (hpS.sublist hsubB)
  refine pairwise_keyLt_of_sorted_nodup (List.sorted_insertionSort _ _) ?_
  have hnB : ((S.drop (i + 1)).map (keyOf cols)).Nodup :=
    (hsubB.map (keyOf cols)).nodup hnS
  have hnF : ((rows.filter (fun r => rowCmp cols r (S.getD i []) == .gt)).map
      (keyOf cols)).Nodup :=
    ((hpermF.map (keyOf cols)).nodup_iff).mpr hnB
  exact (((List.perm_insertionSort _ _).map (keyOf cols)).nodup_iff).mpr hnF

/-- The descriptor a forward-traversal `nextCursor` encodes (no filters):
the boundary row's key as `cursorValues`, direction `next`, refreshed
timestamp. -/
def pageDescriptor (cols : List String) (L : Nat) (r0 : Row) (now : Int) : CursorData :=
  { cursorValues := cols.map (fun c => (c, colVal r0 c)),
    orderBy := cols, limit := L, direction := .next, filters := [],
    timestamp := now }

/-- The token `paginatedUseCase` emits as `nextCursor` during a plain
forward traversal. -/
def pageTokenFor (cols : List String) (L : Nat) (r0 : Row) (now : Int) : Token :=
  encodeCursor (pageDescriptor cols L r0 now)

theorem isEmpty_false_of_length_pos {l : List α} (h : 0 < l.length) : l.isEmpty = false := by
  cases l
  · simp at h
  · rfl

theorem getD_insertionSort_mem {cols : List String} {rows : List Row} {i : Nat}
    (hi : i < rows.length) :
    (List.insertionSort (rowLe .next cols) rows).getD i [] ∈ rows := by
  have hiS : i < (List.insertionSort (rowLe .next cols) rows).length := by
    rw [(List.perm_insertionSort _ _).length_eq]; exact hi
  rw [List.getD_eq_getElem?_getD, List.getElem?_eq_getElem hiS]
  exact (List.perm_insertionSort _ _).mem_iff.mp (List.getElem_mem hiS)

theorem getLast_take_drop {S : List Row} {m L : Nat} (hL : 0 < L)
    (hml : m + L ≤ S.length) :
    (((S.drop m).take L).getLast?).getD [] = S.getD (m + L - 1) [] := by
  have hlen : ((S.drop m).take L).length = L := by
    rw [List.length_take, List.length_drop]; omega
  rw [List.getLast?_eq_getElem?, hlen, List.getElem?_take, if_pos (by omega : L - 1 < L),
    List.getElem?_drop, List.getD_eq_getElem?_getD]
  congr 2
  omega

theorem fullQueryRows_default {searchable : List String} {rows : List Row} {d : CursorData}
    (hfil : d.filters = []) (hcv : d.cursorValues = []) :
    fullQueryRows searchable rows d =
      List.insertionSort (rowLe d.direction d.orderBy) rows := by
  have hpred : cursorPredicate d = fun _ => true := by
    funext r
    unfold cursorPredicate
    rw [hcv]
    simp
  have hmatch : rowMatchesFilters searchable d.filters = fun _ => true := by
    funext r
    rw [hfil]
    rfl
  unfold fullQueryRows
  rw [hpred, hmatch, List.filter_true, List.filter_true]

theorem fullQueryRows_page (searchable : List String) (d : CursorData) (i : Nat)
    {rows : List Row}
    (hfil : d.filters = []) (hdir : d.direction = .next)
    (hob : d.orderBy ≠ [])
    (hcv : d.cursorValues = d.orderBy.map (fun c => (c,
      colVal ((List.insertionSort (rowLe .next d.orderBy) rows).getD i []) c)))
    (hgood : ∀ r ∈ rows, GoodRow d.orderBy r)
    (hn : (rows.map (keyOf d.orderBy)).Nodup)
    (hi : i < rows.length) :
    fullQueryRows searchable rows d =
      (List.insertionSort (rowLe .next d.orderBy) rows).drop (i + 1) := by
  have hr0good : GoodRow d.orderBy
      ((List.insertionSort (rowLe .next d.orderBy) rows).getD i []) :=
    hgood _ (getD_insertionSort_mem hi)
  have hmatch : rowMatchesFilters searchable d.filters = fun _ => true := by
    funext r
    rw [hfil]
    rfl
  have hpred : rows.filter (cursorPredicate d) =
      rows.filter (fun r => rowCmp d.orderBy r
        ((List.insertionSort (rowLe .next d.orderBy) rows).getD i []) == .gt) :=
    List.filter_congr (fun r hr => cursorPredicate_page hob hcv hdir hr0good (hgood r hr))
  unfold fullQueryRows
  rw [hmatch, List.filter_true, hdir, hpred]
  exact sort_filter_eq_drop rfl hi hn

theorem createNextCursor_eq_pageToken {dEff : CursorData} {cols : List String} {L : Nat}
    {item : Row} {now : Int}
    (hob : dEff.orderBy = cols) (hlim : dEff.limit = L) (hfilE : dEff.filters = [])
    (hgooditem : GoodRow cols item) :
    createNextCursor dEff item now = pageTokenFor cols L item now := by
  unfold createNextCursor pageTokenFor
  apply congrArg encodeCursor
  unfold createCursorData
  simp only [hob, hlim, hfilE, colVal]
  rw [List.filter_eq_self.mpr (fun c hc => goodKeyValue_isSome (hgooditem c hc))]
  rfl

/-- One full page of the forward traversal, evaluated: given that the
effective descriptor's unbounded query result is the suffix of the sorted
source starting at offset `m`, the use case returns exactly that window,
`hasMore` iff rows remain past it, and the next token (when present) keyed
by the sorted source's row at position `m + limit - 1`. -/
theorem usecase_page_eval {searchable : List String} {rows : List Row} {d0 dEff : CursorData}
    {cur : Option Token} {m : Nat} {now : Int}
    (hparse : parseCursor d0 cur = dEff)
    (hob : dEff.orderBy = d0.orderBy) (hlim : dEff.limit = d0.limit)
    (hfilE : dEff.filters = [])
    (hfull : fullQueryRows searchable rows dEff =
      (List.insertionSort (rowLe .next d0.orderBy) rows).drop m)
    (hm : m < rows.length) (hL : 0 < d0.limit)
    (hgood : ∀ r ∈ rows, GoodRow d0.orderBy r) :
    (paginatedUseCase id searchable rows d0 cur none now).data =
        ((List.insertionSort (rowLe .next d0.orderBy) rows).drop m).take d0.limit ∧
      (paginatedUseCase id searchable rows d0 cur none now).meta.hasMore =
        decide (m + d0.limit < rows.length) ∧
      (paginatedUseCase id searchable rows d0 cur none now).meta.nextCursor =
        (if m + d0.limit < rows.length
          then some (pageTokenFor d0.orderBy d0.limit
            ((List.insertionSort (rowLe .next d0.orderBy) rows).getD
              (m + d0.limit - 1) []) now)
          else none) := by
  have hSlen : (List.insertionSort (rowLe .next d0.orderBy) rows).length = rows.length :=
    (List.perm_insertionSort _ _).length_eq
  have hpage_items : (paginatedQuery searchable rows dEff).items =
      ((List.insertionSort (rowLe .next d0.orderBy) rows).drop m).take d0.limit := by
    show ((fullQueryRows searchable rows dEff).take (dEff.limit + 1)).take dEff.limit = _
    rw [hfull, hlim, List.take_take]
    congr 1
    omega
  have hpage_more : (paginatedQuery searchable rows dEff).hasMore =
      decide (m + d0.limit < rows.length) := by
    show decide (dEff.limit <
        ((fullQueryRows searchable rows dEff).take (dEff.limit + 1)).length) = _
    rw [hfull, hlim, decide_eq_decide, List.length_take, List.length_drop, hSlen]
    omega
  have hitems_ne : (paginatedQuery searchable rows dEff).items.isEmpty = false := by
    rw [hpage_items]
    apply isEmpty_false_of_length_pos
    rw [List.length_take, List.length_drop, hSlen]
    omega
  have heff : applyOverrides (parseCursor d0 cur) none = dEff := by rw [hparse]; rfl
  refine ⟨?_, ?_, ?_⟩
  · show ((paginatedQuery searchable rows
        (applyOverrides (parseCursor d0 cur) none)).items).map id = _
    rw [heff, hpage_items, List.map_id]
  · show (paginatedQuery searchable rows
        (applyOverrides (parseCursor d0 cur) none)).hasMore = _
    rw [heff, hpage_more]
  · show (if (paginatedQuery searchable rows
          (applyOverrides (parseCursor d0 cur) none)).hasMore &&
          !(paginatedQuery searchable rows
            (applyOverrides (parseCursor d0 cur) none)).items.isEmpty
        then some (createNextCursor (applyOverrides (parseCursor d0 cur) none)
          ((paginatedQuery searchable rows
            (applyOverrides (parseCursor d0 cur) none)).items.getLast?.getD []) now)
        else none) = _
    rw [heff, hpage_more, hitems_ne]
    by_cases hML : m + d0.limit < rows.length
    · rw [if_pos hML]
      have hcond : (decide (m + d0.limit < rows.length) && !false) = true := by
        simp [hML]
      rw [hcond, if_pos rfl]
      have hlast : (paginatedQuery searchable rows dEff).items.getLast?.getD [] =
          (List.insertionSort (rowLe .next d0.orderBy) rows).getD (m + d0.limit - 1) [] := by
        rw [hpage_items]
        exact getLast_take_drop hL (by omega)
      rw [hlast]
      exact congrArg some (createNextCursor_eq_pageToken hob hlim hfilE
        (hgood _ (getD_insertionSort_mem (by omega))))
    · rw [if_neg hML]
      have hcond : (decide (m + d0.limit < rows.length) && !false) = false := by
        simp [hML]
      rw [hcond]
      rfl

theorem orderBy_ne_nil_of_two {cols : List String} {rows : List Row}
    (hn : (rows.map (keyOf cols)).Nodup) (h2 : 2 ≤ rows.length) : cols ≠ [] := by
  intro hc
  subst hc
  rcases rows with _ | ⟨a, _ | ⟨b, t⟩⟩
  · simp at h2
  · simp at h2
  · simp [keyOf] at hn

/-- Unfolding `List.join` on a `cons`. -/
theorem joinCons {α : Type} (a : List α) (l : List (List α)) :
    (a :: l).join = a ++ l.join := rfl

/-- Unfolding `List.join` on `nil`. -/
theorem joinNil {α : Type} : ([] : List (List α)).join = [] := rfl

/-- The forward-traversal invariant, by induction on the number of pages
still to produce: starting at offset `m` into the sorted source with the
matching cursor token (or no token at offset 0), `j` pages remain where
`j = ⌈(N − m) / L⌉`, their data concatenates to the suffix from `m`, and
`hasMore` / `nextCursor` are set on every page but the last. -/
theorem followNext_master {searchable : List String} {rows : List Row} {d0 : CursorData}
    {now : Int}
    (hfilD : d0.filters = []) (hcvD : d0.cursorValues = []) (hdirD : d0.direction = .next)
    (hL : 0 < d0.limit) (hgood : ∀ r ∈ rows, GoodRow d0.orderBy r)
    (hn : (rows.map (keyOf d0.orderBy)).Nodup) :
    ∀ (j m : Nat) (cur : Option Token),
      m < rows.length →
      (j - 1) * d0.limit < rows.length - m →
      rows.length - m ≤ j * d0.limit →
      ((m = 0 ∧ cur = none) ∨
        (0 < m ∧ cur = some (pageTokenFor d0.orderBy d0.limit
          ((List.insertionSort (rowLe .next d0.orderBy) rows).getD (m - 1) []) now))) →
      (followNext searchable rows d0 now j cur).length = j ∧
      ((followNext searchable rows d0 now j cur).map (fun p => p.data)).join =
        (List.insertionSort (rowLe .next d0.orderBy) rows).drop m ∧
      (∀ i, i < j →
        ((followNext searchable rows d0 now j cur).getD i
            ⟨[], ⟨none, none, false, 0⟩⟩).meta.hasMore = decide (i + 1 < j) ∧
        ((followNext searchable rows d0 now j cur).getD i
            ⟨[], ⟨none, none, false, 0⟩⟩).meta.nextCursor.isSome = decide (i + 1 < j)) := by
  intro j
  induction j with
  | zero =>
    intro m cur hm h1 h2 _
    omega
  | succ jj ih =>
    intro m cur hm h1 h2 hcur
    simp only [Nat.add_sub_cancel] at h1
    rw [Nat.succ_mul] at h2
    have hSlen : (List.insertionSort (rowLe .next d0.orderBy) rows).length = rows.length :=
      (List.perm_insertionSort _ _).length_eq
    obtain ⟨dEff, hparse, hob, hlim, hfilE, hfull⟩ :
        ∃ dEff, parseCursor d0 cur = dEff ∧ dEff.orderBy = d0.orderBy ∧
          dEff.limit = d0.limit ∧ dEff.filters = [] ∧
          fullQueryRows searchable rows dEff =
            (List.insertionSort (rowLe .next d0.orderBy) rows).drop m := by
      rcases hcur with ⟨hm0, hcn⟩ | ⟨hmpos, hct⟩
      · subst hm0
        subst hcn
        refine ⟨d0, rfl, rfl, rfl, hfilD, ?_⟩
        rw [fullQueryRows_default hfilD hcvD, hdirD, List.drop_zero]
      · have hNm1 : m - 1 < rows.length := by omega
        have hr0good : GoodRow d0.orderBy
            ((List.insertionSort (rowLe .next d0.orderBy) rows).getD (m - 1) []) :=
          hgood _ (getD_insertionSort_mem hNm1)
        have hdec : decodeCursor (pageTokenFor d0.orderBy d0.limit
            ((List.insertionSort (rowLe .next d0.orderBy) rows).getD (m - 1) []) now) =
            .ok (pageDescriptor d0.orderBy d0.limit
              ((List.insertionSort (rowLe .next d0.orderBy) rows).getD (m - 1) []) now) := by
          apply decodeCursor_encodeCursor
          · exact hL
          · intro p hp
            simp [pageDescriptor] at hp
          · intro p hp
            simp only [pageDescriptor] at hp
            obtain ⟨c, hc, rfl⟩ := List.mem_map.mp hp
            exact goodKeyValue_stable (hr0good c hc)
        refine ⟨pageDescriptor d0.orderBy d0.limit
          ((List.insertionSort (rowLe .next d0.orderBy) rows).getD (m - 1) []) now,
          ?_, rfl, rfl, rfl, ?_⟩
        · rw [hct]
          simp only [parseCursor, hdec]
        · have hob2 : d0.orderBy ≠ [] := orderBy_ne_nil_of_two hn (by omega)
          have hstep := fullQueryRows_page searchable
            (pageDescriptor d0.orderBy d0.limit
              ((List.insertionSort (rowLe .next d0.orderBy) rows).getD (m - 1) []) now)
            (m - 1) rfl rfl hob2 rfl hgood hn hNm1
          have hm1 : m - 1 + 1 = m := by omega
          rw [hm1] at hstep
          exact hstep
    obtain ⟨hdata, hmore, hnext⟩ := usecase_page_eval hparse hob hlim hfilE hfull hm hL hgood
    simp only [followNext]
    by_cases hML : m + d0.limit < rows.length
    · have hjj : 1 ≤ jj := by
        rcases Nat.eq_zero_or_pos jj with h0 | h
        · subst h0
          rw [Nat.zero_mul] at h2
          omega
        · exact h
      rw [hnext, if_pos hML]
      have hrec := ih (m + d0.limit)
        (some (pageTokenFor d0.orderBy d0.limit
          ((List.insertionSort (rowLe .next d0.orderBy) rows).getD (m + d0.limit - 1) []) now))
        hML
        (by rw [Nat.sub_one_mul]; omega)
        (by omega)
        (Or.inr ⟨by omega, rfl⟩)
      obtain ⟨ihlen, ihjoin, ihflags⟩ := hrec
      refine ⟨?_, ?_, ?_⟩
      · rw [List.length_cons, ihlen]
      · rw [List.map_cons, joinCons, ihjoin, hdata]
        have hdd : (List.insertionSort (rowLe .next d0.orderBy) rows).drop (m + d0.limit) =
            ((List.insertionSort (rowLe .next d0.orderBy) rows).drop m).drop d0.limit := by
          rw [List.drop_drop, Nat.add_comm]
        rw [hdd, List.take_append_drop]
      · intro i hi
        cases i with
        | zero =>
          rw [List.getD_cons_zero]
          constructor
          · rw [hmore]
            exact decide_eq_decide.mpr (iff_of_true hML (by omega))
          · rw [hnext, if_pos hML, Option.isSome_some, eq_comm, decide_eq_true_eq]
            omega
        | succ i2 =>
          rw [List.getD_cons_succ]
          refine ⟨(ihflags i2 (by omega)).1.trans (decide_eq_decide.mpr (by omega)),
            (ihflags i2 (by omega)).2.trans (decide_eq_decide.mpr (by omega))⟩
    · have hj0 : jj = 0 := by
        rcases Nat.eq_zero_or_pos jj with h0 | hpos
        · exact h0
        · exfalso
          have hmul : d0.limit ≤ jj * d0.limit := Nat.le_mul_of_pos_left _ hpos
          omega
      subst hj0
      rw [hnext, if_neg hML]
      refine ⟨rfl, ?_, ?_⟩
      · rw [List.map_cons, joinCons, hdata, List.map_nil, joinNil,
          List.append_nil]
        apply List.take_of_length_le
        rw [List.length_drop, hSlen]
        omega
      · intro i hi
        have hi0 : i = 0 := by omega
        subst hi0
        rw [List.getD_cons_zero]
        constructor
        · rw [hmore]
          exact decide_eq_decide.mpr (iff_of_false hML (by omega))
        · rw [hnext, if_neg hML]
          rfl

/-- C2 counterexample: forward traversal does **not** always reproduce the
row set exactly once.  With two rows sharing the same `orderBy` key value
(`id = 1`) and `limit = 1`, page 1 returns the first row and its
`nextCursor` carries `id = 1`; page 2 applies the keyset bound `id > 1`,
which excludes **both** rows, so the second row is silently skipped: the
concatenated traversal has 1 row while the source has 2. -/
theorem claim2_traversal_counterexample :
    (((followNext [] [[("id", Value.num 1), ("x", Value.num 1)],
          [("id", Value.num 1), ("x", Value.num 2)]]
        { cursorValues := [], orderBy := ["id"], limit := 1, direction := .next,
          filters := [], timestamp := 0 } 0 2 none).map (fun p => p.data)).join).length ≠
      ([[("id", Value.num 1), ("x", Value.num 1)],
        [("id", Value.num 1), ("x", Value.num 2)]] : List Row).length := by
  decide

/-- C2 (amended): over a source whose rows all carry defined, non-empty,
codec-stable values on every `orderBy` column and whose `orderBy` key
tuples are pairwise distinct, starting `paginatedUseCase` from the default
descriptor (empty `cursorValues`, direction `next`, no filters, positive
limit `L`) with no cursor and repeatedly following `meta.nextCursor`
yields exactly `⌈N / L⌉` pages whose data concatenates, in order, to the
full sorted row set — each row exactly once, no gap, no duplicate — and
`hasMore` / `nextCursor` are set on every page except the last. -/
theorem claim2_traversal_amended {searchable : List String} {rows : List Row}
    {d0 : CursorData} {now : Int}
    (hfilD : d0.filters = []) (hcvD : d0.cursorValues = []) (hdirD : d0.direction = .next)
    (hL : 0 < d0.limit) (hgood : ∀ r ∈ rows, GoodRow d0.orderBy r)
    (hn : (rows.map (keyOf d0.orderBy)).Nodup) (hN : 0 < rows.length) :
    (followNext searchable rows d0 now ((rows.length + d0.limit - 1) / d0.limit) none).length
        = (rows.length + d0.limit - 1) / d0.limit ∧
    ((followNext searchable rows d0 now ((rows.length + d0.limit - 1) / d0.limit) none).map
        (fun p => p.data)).join = List.insertionSort (rowLe .next d0.orderBy) rows ∧
    (∀ i, i < (rows.length + d0.limit - 1) / d0.limit →
      ((followNext searchable rows d0 now ((rows.length + d0.limit - 1) / d0.limit)
            none).getD i ⟨[], ⟨none, none, false, 0⟩⟩).meta.hasMore
        = decide (i + 1 < (rows.length + d0.limit - 1) / d0.limit) ∧
      ((followNext searchable rows d0 now ((rows.length + d0.limit - 1) / d0.limit)
            none).getD i ⟨[], ⟨none, none, false, 0⟩⟩).meta.nextCursor.isSome
        = decide (i + 1 < (rows.length + d0.limit - 1) / d0.limit)) := by
  have hQ := Nat.div_add_mod (rows.length + d0.limit - 1) d0.limit
  have hR : (rows.length + d0.limit - 1) % d0.limit < d0.limit := Nat.mod_lt _ hL
  have hub : rows.length ≤ ((rows.length + d0.limit - 1) / d0.limit) * d0.limit := by
    rw [Nat.mul_comm]
    omega
  have hlb : ((rows.length + d0.limit - 1) / d0.limit - 1) * d0.limit < rows.length := by
    rw [Nat.sub_one_mul, Nat.mul_comm]
    omega
  have h := @followNext_master searchable rows d0 now hfilD hcvD hdirD hL hgood hn
    ((rows.length + d0.limit - 1) / d0.limit) 0 none hN
    (by simpa using hlb) (by simpa using hub) (Or.inl ⟨rfl, rfl⟩)
  rw [List.drop_zero] at h
  exact h

/-- Witness for the amended C2 at a concrete input: three rows, limit 2,
giving `⌈3 / 2⌉ = 2` pages. -/
theorem claim2_traversal_amended_witness :
    ((CursorData.filters
          { cursorValues := [], orderBy := ["id"], limit := 2, direction := .next,
            filters := [], timestamp := 0 } = []) ∧
      (CursorData.cursorValues
          { cursorValues := [], orderBy := ["id"], limit := 2, direction := .next,
            filters := [], timestamp := 0 } = []) ∧
      (CursorData.direction
          { cursorValues := [], orderBy := ["id"], limit := 2, direction := .next,
            filters := [], timestamp := 0 } = .next) ∧
      0 < CursorData.limit
          { cursorValues := [], orderBy := ["id"], limit := 2, direction := .next,
            filters := [], timestamp := 0 } ∧
      (∀ r ∈ ([[("id", Value.num 2)], [("id", Value.num 1)], [("id", Value.num 3)]] :
          List Row), GoodRow ["id"] r) ∧
      (([[("id", Value.num 2)], [("id", Value.num 1)], [("id", Value.num 3)]] :
          List Row).map (keyOf ["id"])).Nodup ∧
      0 < ([[("id", Value.num 2)], [("id", Value.num 1)], [("id", Value.num 3)]] :
          List Row).length) ∧
    ((followNext [] [[("id", Value.num 2)], [("id", Value.num 1)], [("id", Value.num 3)]]
        { cursorValues := [], orderBy := ["id"], limit := 2, direction := .next,
          filters := [], timestamp := 0 } 0 2 none).length = 2 ∧
      ((followNext [] [[("id", Value.num 2)], [("id", Value.num 1)], [("id", Value.num 3)]]
          { cursorValues := [], orderBy := ["id"], limit := 2, direction := .next,
            filters := [], timestamp := 0 } 0 2 none).map (fun p => p.data)).join =
        List.insertionSort (rowLe .next ["id"])
          [[("id", Value.num 2)], [("id", Value.num 1)], [("id", Value.num 3)]] ∧
      (∀ i, i < 2 →
        ((followNext [] [[("id", Value.num 2)], [("id", Value.num 1)], [("id", Value.num 3)]]
            { cursorValues := [], orderBy := ["id"], limit := 2, direction := .next,
              filters := [], timestamp := 0 } 0 2 none).getD i
            ⟨[], ⟨none, none, false, 0⟩⟩).meta.hasMore = decide (i + 1 < 2) ∧
        ((followNext [] [[("id", Value.num 2)], [("id", Value.num 1)], [("id", Value.num 3)]]
            { cursorValues := [], orderBy := ["id"], limit := 2, direction := .next,
              filters := [], timestamp := 0 } 0 2 none).getD i
            ⟨[], ⟨none, none, false, 0⟩⟩).meta.nextCursor.isSome = decide (i + 1 < 2))) :=
  ⟨⟨rfl, rfl, rfl, by decide, by decide, by decide, by decide⟩,
    claim2_traversal_amended rfl rfl rfl (by decide) (by decide) (by decide) (by decide)⟩

end Pagination
